import Mathlib

/-
Verification of the telemetry analytics and root-cause inference pipeline of
the azure-arc-deployment-framework repository.

The development shallowly embeds the relevant parts of
`src/Python/analysis/telemetry_processor.py` (class `TelemetryProcessor`) and
`src/Python/analysis/RootCauseAnalyzer.py` (class `SimpleRCAEstimator`) as
executable Lean functions over the rationals, and proves the claimed
properties about them.  Machine floats are modelled by `Rat`; calls into
external numerical libraries (sklearn's `StandardScaler.fit_transform` and
`PCA.fit_transform`, scipy's `linregress`, pandas' `DataFrame.corr`, and the
covariance branch of the Mahalanobis computation, all of which need real
square roots or special functions) are modelled as explicit function
parameters, while every piece of control flow and arithmetic written in the
repository itself is embedded concretely.
-/

set_option maxHeartbeats 1000000

/-! ## Small numeric utilities shared by the embeddings -/

/-- Round-half-to-even of a rational to an integer.  This is the rounding mode
used by Python's builtin `round` (on exact values). -/
def round_half_even (q : ℚ) : ℤ :=
  let f : ℤ := q.floor
  let r : ℚ := q - (f : ℚ)
  if r < 1/2 then f
  else if 1/2 < r then f + 1
  else if f % 2 = 0 then f else f + 1

/-- Python's `round(x, d)`: round to `d` decimal digits, half to even. -/
def py_round (d : ℕ) (q : ℚ) : ℚ :=
  (round_half_even (q * (10 : ℚ) ^ d) : ℚ) / (10 : ℚ) ^ d

/-- Insert into an ascending list of rationals (used to model `np.sort`). -/
def insert_asc (x : ℚ) : List ℚ → List ℚ
  | [] => [x]
  | y :: ys => if y < x then y :: insert_asc x ys else x :: y :: ys

/-- Ascending sort of a list of rationals (models `np.sort`). -/
def sort_asc : List ℚ → List ℚ
  | [] => []
  | x :: xs => insert_asc x (sort_asc xs)

/-- `np.percentile(xs, q)` with the default linear interpolation:
sort ascending, take the value at fractional position `q/100 * (n-1)`,
interpolating linearly between the two neighbouring order statistics.
The empty-list case (where numpy raises) is mapped to `0`; every use in the
embedded pipeline is guarded so that `xs` is non-empty. -/
def np_percentile (xs : List ℚ) (q : ℚ) : ℚ :=
  match sort_asc xs with
  | [] => 0
  | h :: t =>
    let s := h :: t
    let n := s.length
    let pos : ℚ := q * ((n : ℚ) - 1) / 100
    let i : ℕ := pos.floor.toNat
    let frac : ℚ := pos - (pos.floor : ℚ)
    let a := s.getD i h
    if i + 1 < n then a + frac * (s.getD (i + 1) h - a) else s.getD (n - 1) h

/-- Lookup in an association list, first match (models Python `dict.get`:
the embedded dictionaries are built with unique keys). -/
def dict_get {β : Type} (l : List (String × β)) (k : String) : Option β :=
  match l with
  | [] => none
  | (k', v) :: rest => if k' = k then some v else dict_get rest k

/-- Python dictionary assignment `d[k] = v`: replace the value in place when
the key exists, append otherwise. -/
def dict_set (l : List (String × ℚ)) (k : String) (v : ℚ) : List (String × ℚ) :=
  if l.any (fun p => p.1 = k) then
    l.map (fun p => if p.1 = k then (k, v) else p)
  else l ++ [(k, v)]

/-! ## TelemetryProcessor: anomaly scoring

Embeds `_prepare_feature_matrix` (modern flattened path),
`_calculate_mahalanobis_distance`, `_flatten_features_for_detection` and
`_detect_anomalies` from `src/Python/analysis/telemetry_processor.py`. -/

/-- The configuration keys of `TelemetryProcessor` that the anomaly path
reads, with the defaults used by `config.get`. -/
structure TPConfig where
  anomaly_detection_features : List String := []
  anomaly_threshold_percentile : ℚ := 95
  trend_slope_threshold : ℚ := 1/20
  trend_p_value_threshold : ℚ := 1/20
  correlation_threshold : ℚ := 4/5
  strong_correlation_threshold : ℚ := 9/10
  deriving Repr

/-- One entry of the `details` list of the anomaly result: either an error
record (`{"error": msg}`) or a scored record with `distance_score`,
`threshold_value` and `anomalous_feature_values`. -/
inductive AnomalyDetail where
  | errorDetail (msg : String)
  | scored (distance_score threshold_value : ℚ) (features : List (String × ℚ))
  deriving Repr, DecidableEq

/-- The dictionary returned by `_detect_anomalies`. -/
structure AnomalyResult where
  detected : Bool
  details : List AnomalyDetail
  deriving Repr, DecidableEq

/-- `_prepare_feature_matrix`, modern path: select the configured feature
names from the flattened feature dictionary in order; a missing (or, in the
source, non-finite) value defaults to `0.0`.  Returns the one-sample feature
matrix together with the feature names used, or `none` when no features are
configured (the source returns `(None, [])`). -/
def prepare_feature_matrix (cfg : TPConfig) (flattened : List (String × ℚ)) :
    Option (List (List ℚ) × List String) :=
  if cfg.anomaly_detection_features = [] then none
  else
    let feature_values :=
      cfg.anomaly_detection_features.map (fun n => (dict_get flattened n).getD 0)
    -- `if not feature_values` in the source: unreachable here since the
    -- configured list is non-empty, kept for fidelity.
    if feature_values = [] then none
    else some ([feature_values], cfg.anomaly_detection_features)

/-- Total number of entries of a row-major matrix (models `ndarray.size`). -/
def mat_size (m : List (List ℚ)) : ℕ := (m.map List.length).sum

/-- `_calculate_mahalanobis_distance`.  With fewer than 2 samples the source
returns all-zero distances ("Not enough samples for Mahalanobis distance").
The branch with 2 or more samples inverts the covariance matrix (or its
pseudo-inverse) and takes real square roots via numpy; it is modelled by the
`general` parameter.  In this pipeline the prepared feature matrix always has
exactly one row, so that branch is never reached. -/
def calculate_mahalanobis_distance (general : List (List ℚ) → List ℚ)
    (features : List (List ℚ)) : List ℚ :=
  if features.length < 2 then List.replicate features.length 0
  else general features

/-- A fallible external matrix transformation: models an sklearn
`fit_transform` call, which may raise (`Except.error` carries `str(e)`). -/
abbrev MatStep := List (List ℚ) → Except String (List (List ℚ))

/-- The body of `_detect_anomalies` up to the Mahalanobis computation:
prepare the feature matrix, standardize (`self.scaler.fit_transform`,
parameter `scalerF`), and project (`self.pca.fit_transform`, parameter
`pcaF`) unless projection is skipped.  `self.pca.n_components` is the float
`0.95` set in `__init__` (the integer branch of the source is unreachable),
so PCA is skipped exactly when the scaled matrix has fewer than 2 columns.
Returns the error details of an early return, or the feature matrix, the
feature names and the PCA features. -/
def anomaly_core (scalerF pcaF : MatStep) (cfg : TPConfig)
    (flattened : List (String × ℚ)) :
    Except (List AnomalyDetail) (List (List ℚ) × List String × List (List ℚ)) :=
  match prepare_feature_matrix cfg flattened with
  | none => .error [.errorDetail "Feature matrix could not be prepared."]
  | some (feature_matrix, feature_names_used) =>
    if mat_size feature_matrix = 0 then
      .error [.errorDetail "Feature matrix could not be prepared."]
    else
      match scalerF feature_matrix with
      | .error e => .error [.errorDetail e]
      | .ok scaled_features =>
        match (if scaled_features.length = 0 then Except.ok scaled_features
               else if (scaled_features.headD []).length < 2 then
                 Except.ok scaled_features
               else pcaF scaled_features) with
        | .error e => .error [.errorDetail e]
        | .ok pca_features =>
          if mat_size pca_features = 0 then
            .error [.errorDetail "PCA resulted in empty features."]
          else .ok (feature_matrix, feature_names_used, pca_features)

/-- The Mahalanobis distances computed by `_detect_anomalies` (empty when an
early return or error occurred before the distance computation). -/
def anomaly_distances (scalerF pcaF : MatStep)
    (general : List (List ℚ) → List ℚ) (cfg : TPConfig)
    (flattened : List (String × ℚ)) : List ℚ :=
  match anomaly_core scalerF pcaF cfg flattened with
  | .error _ => []
  | .ok (_, _, pca_features) => calculate_mahalanobis_distance general pca_features

/-- The anomaly threshold of `_detect_anomalies`: the configured percentile
(default the 95th) of the batch's own distance distribution. -/
def anomaly_threshold (scalerF pcaF : MatStep)
    (general : List (List ℚ) → List ℚ) (cfg : TPConfig)
    (flattened : List (String × ℚ)) : ℚ :=
  np_percentile (anomaly_distances scalerF pcaF general cfg flattened)
    cfg.anomaly_threshold_percentile

/-- The tail of `_detect_anomalies`: `np.where(distances > threshold_value)`
and the assembly of the result.  When some index is flagged, the result
records the first flagged distance, the threshold and the feature values of
the (single) prepared sample. -/
def flag_anomalies (distances : List ℚ) (threshold_value : ℚ)
    (anomalous_feature_values : List (String × ℚ)) : AnomalyResult :=
  match (List.range distances.length).filter
      (fun i => threshold_value < distances.getD i 0) with
  | [] => ⟨false, []⟩
  | i :: _ =>
    ⟨true, [.scored (distances.getD i 0) threshold_value anomalous_feature_values]⟩

/-- `_detect_anomalies`.  Any exception raised by an internal step is caught
by the surrounding try/except and turned into a result with `detected` false
and a single error detail; the early returns produce the same shape. -/
def detect_anomalies (scalerF pcaF : MatStep)
    (general : List (List ℚ) → List ℚ) (cfg : TPConfig)
    (flattened : List (String × ℚ)) : AnomalyResult :=
  match anomaly_core scalerF pcaF cfg flattened with
  | .error ds => ⟨false, ds⟩
  | .ok (feature_matrix, feature_names_used, pca_features) =>
    let distances := calculate_mahalanobis_distance general pca_features
    flag_anomalies distances
      (np_percentile distances cfg.anomaly_threshold_percentile)
      (feature_names_used.zip (feature_matrix.headD []))

/-! ## TelemetryProcessor: flattened features

Embeds `_flatten_features_for_detection`.  A telemetry batch is a list of
records (metric name to numeric value); pandas builds one column per key that
occurs in some record, and the column mean skips the rows where the key is
missing.  The derived-feature dictionary produced by
`_calculate_derived_features` (whose values involve standard deviations and
regression slopes over the reals) enters as the `derived` parameter; its
entries are written over the column means under their own fixed keys, exactly
as in the source. -/

/-- The columns of `pd.DataFrame(batch)`: every key in order of first
appearance. -/
def df_columns (batch : List (List (String × ℚ))) : List String :=
  batch.foldl
    (fun acc row => acc ++ (row.map Prod.fst).filter (fun k => ¬ acc.contains k))
    []

/-- The mean of a DataFrame column, skipping rows where the key is missing
(pandas `mean` skips NaN); `0` for a column that occurs nowhere, a case the
flattening never reaches. -/
def col_mean (batch : List (List (String × ℚ))) (c : String) : ℚ :=
  let vals := batch.filterMap (fun row => dict_get row c)
  if vals = [] then 0 else vals.sum / vals.length

/-- First of the given candidate column names that is present in the batch
(the `_col` helper of `_extract_features`). -/
def pick_col (batch : List (List (String × ℚ))) : List String → Option String
  | [] => none
  | n :: ns => if (df_columns batch).contains n then some n else pick_col batch ns

/-- `_flatten_features_for_detection`: column means for every (numeric)
DataFrame column, then the derived features, then the aggregated aliases
`cpu_average` and `memory_average` (the means of the cpu/memory columns that
`_extract_features` stores under `features['cpu']['average']` and
`features['memory']['average']`). -/
def flatten_features_for_detection (derived : List (String × ℚ))
    (batch : List (List (String × ℚ))) : List (String × ℚ) :=
  let base := (df_columns batch).map (fun c => (c, col_mean batch c))
  let with_derived := derived.foldl (fun acc p => dict_set acc p.1 p.2) base
  let with_cpu :=
    match pick_col batch ["cpu_usage", "cpu_usage_avg"] with
    | some c => dict_set with_derived "cpu_average" (col_mean batch c)
    | none => with_derived
  match pick_col batch ["memory_usage", "memory_usage_avg"] with
  | some c => dict_set with_cpu "memory_average" (col_mean batch c)
  | none => with_cpu

/-! ## TelemetryProcessor: trend analysis

Embeds the per-column body of `_calculate_period_trends` (lines 380-417).
`scipy.stats.linregress` is an external call returning
`(slope, intercept, r_value, p_value, stderr)`; its p-value needs the
t-distribution, so it enters as the parameter `linregressF` (`none` models
the exception branch, which also yields the neutral record). -/

/-- One per-metric-per-window trend record. -/
structure TrendRecord where
  slope : ℚ
  intercept : ℚ
  r_value : ℚ
  p_value : ℚ
  stderr : ℚ
  significant : Bool
  direction : String
  deriving Repr, DecidableEq

/-- The neutral record returned for columns with insufficient data (and for
linregress failures). -/
def neutral_trend : TrendRecord :=
  ⟨0, 0, 0, 1, 0, false, "stable"⟩

/-- The body of the per-column loop of `_calculate_period_trends`: pair the
numeric time axis with the column values, drop pairs where either side is
missing, return the neutral record when fewer than 3 valid pairs remain,
otherwise regress and derive `direction` (from the slope magnitude against
`trend_slope_threshold`) and `significant` (p-value strictly below
`trend_p_value_threshold`). -/
def calculate_period_trend_column
    (linregressF : List (ℚ × ℚ) → Option (ℚ × ℚ × ℚ × ℚ × ℚ))
    (cfg : TPConfig) (time_numeric : List (Option ℚ))
    (series_data : List (Option ℚ)) : TrendRecord :=
  let valid := (time_numeric.zip series_data).filterMap
    (fun p => match p with
      | (some t, some v) => some (t, v)
      | _ => none)
  if valid.length < 3 then neutral_trend
  else
    match linregressF valid with
    | none => neutral_trend
    | some (slope, intercept, r_value, p_value, stderr) =>
      let direction :=
        if cfg.trend_slope_threshold < slope then "increasing"
        else if slope < -cfg.trend_slope_threshold then "decreasing"
        else "stable"
      let significant := p_value < cfg.trend_p_value_threshold
      ⟨slope, intercept, r_value, p_value, stderr, significant, direction⟩

/-! ## TelemetryProcessor: correlation detection

Embeds the pair loop of `_detect_correlations` (lines 749-771).  The Pearson
coefficient matrix comes from pandas (`numerical_df.corr`), an external call
needing real square roots; it enters as `corrF` with `none` modelling a NaN
entry (`pd.notna` fails). -/

/-- One reported correlation pair. -/
structure CorrEntry where
  metric_a : String
  metric_b : String
  correlation_coefficient : ℚ
  strength : String
  deriving Repr, DecidableEq

/-- All ordered pairs `(cols[i], cols[j])` with `i < j`, in the order of the
source's double loop `for i in range(n): for j in range(i+1, n)`. -/
def upper_pairs {α : Type} : List α → List (α × α)
  | [] => []
  | x :: xs => xs.map (fun y => (x, y)) ++ upper_pairs xs

/-- The body of the pair loop: keep a pair when its coefficient is not NaN
and its absolute value reaches `correlation_threshold`; tag `strong` at
`strong_correlation_threshold`, else `moderate`; the reported coefficient is
rounded to 3 decimals. -/
def corr_entry_for (corrF : String → String → Option ℚ) (cfg : TPConfig)
    (p : String × String) : Option CorrEntry :=
  match corrF p.1 p.2 with
  | none => none
  | some r =>
    if cfg.correlation_threshold ≤ |r| then
      some ⟨p.1, p.2, py_round 3 r,
        if cfg.strong_correlation_threshold ≤ |r| then "strong" else "moderate"⟩
    else none

/-- `_detect_correlations` on a list of (numeric, existing) column names:
fewer than 2 columns yields no pairs, otherwise each unordered pair is
examined once, in canonical `i < j` order. -/
def detect_correlations (corrF : String → String → Option ℚ) (cfg : TPConfig)
    (cols : List String) : List CorrEntry :=
  if cols.length < 2 then []
  else (upper_pairs cols).filterMap (corr_entry_for corrF cfg)

/-! ## SimpleRCAEstimator (src/Python/analysis/RootCauseAnalyzer.py)

Embeds `predict_root_cause`: the simplified-schema rewrites, case-insensitive
whole-word keyword matching (the regex search of a `\b`-delimited escaped
keyword), metric-threshold evaluation (exact-name and name-contains
conditions), the trigger combination logic, the confidence boost, the
fallback candidate and the final stable descending sort by
`(impact, confidence)`. -/

/-- ASCII lowering of a character (`str.lower` on the ASCII fragment the
rules and incidents use). -/
def py_lower_char (c : Char) : Char := c.toLower

/-- `str.lower` as a list of characters. -/
def py_lower (s : String) : List Char := s.data.map py_lower_char

/-- A regex word character (`\w`): letter, digit or underscore. -/
def is_word_char (c : Char) : Bool := c.isAlphanum || c = '_'

/-- Wordness of the character at position `i`, `false` out of range. -/
def word_char_at (s : List Char) (i : ℕ) : Bool :=
  is_word_char (s.getD i ' ')

/-- A `\b` word boundary at position `i` of `s`: the wordness of the
character before `i` differs from the wordness of the character at `i`. -/
def boundary_at (s : List Char) (i : ℕ) : Bool :=
  (if i = 0 then false else word_char_at s (i - 1)) != word_char_at s i

/-- The escaped keyword occurs literally at position `i` with word boundaries
on both sides. -/
def word_match_at (s kw : List Char) (i : ℕ) : Bool :=
  decide ((s.drop i).take kw.length = kw) && boundary_at s i &&
    boundary_at s (i + kw.length)

/-- `re.search(r'\b' + re.escape(kw) + r'\b', s)` as a Boolean. -/
def word_search (s kw : List Char) : Bool :=
  (List.range (s.length + 1)).any (word_match_at s kw)

/-- Substring containment (`substr in key` in Python). -/
def str_contains (s sub : List Char) : Bool :=
  (List.range (s.length + 1)).any (fun i => decide ((s.drop i).take sub.length = sub))

/-- One entry of a rule's `metrics_thresholds` list.  `metric` /
`metric_contains` / `operator` are `Option`s because the source reads them
with `dict.get`; a missing operator defaults to `>` at evaluation time. -/
structure MetricCond where
  metric : Option String := none
  metric_contains : Option String := none
  threshold : ℚ := 0
  operator : Option String := none
  deriving Repr, DecidableEq

/-- A configured root-cause rule.  Every field is optional exactly as a key
of the Python rule dictionary is; the `get` defaults are applied at the use
sites, as in the source. -/
structure Rule where
  keywords_all : Option (List String) := none
  keywords_any : Option (List String) := none
  metrics_thresholds : Option (List MetricCond) := none
  metric_threshold : Option ℚ := none
  cause : Option String := none
  recommendation : Option String := none
  impact_score : Option ℚ := none
  base_confidence : Option ℚ := none
  deriving Repr, DecidableEq

/-- The configuration of `SimpleRCAEstimator`: the confidence boost and the
default confidence for rules without `base_confidence`. -/
structure RCAConfig where
  multi_condition_confidence_boost : ℚ := 1/10
  default_confidence : ℚ := 3/5
  deriving Repr

/-- An incident record: the free-text `description`, the optional nested
`metrics` mapping, and the flattened numeric top-level fields that the
fallback at the top of `predict_root_cause` collects when `metrics` is
missing, not a dict, or empty. -/
structure Incident where
  description : String
  metrics : Option (List (String × ℚ)) := none
  extra_numeric_fields : List (String × ℚ) := []
  deriving Repr

/-- The metric mapping `predict_root_cause` works with: the nested `metrics`
dict when it is a non-empty dict, otherwise the flattened top-level numeric
fields. -/
def resolved_metrics (incident : Incident) : List (String × ℚ) :=
  match incident.metrics with
  | some (p :: rest) => p :: rest
  | _ => incident.extra_numeric_fields

/-- Python truthiness of an optional list (`rule_details.get(k)` used as a
condition): true exactly for a present, non-empty list. -/
def truthy_list {α : Type} : Option (List α) → Bool
  | some (_ :: _) => true
  | _ => false

/-- Python truthiness of an optional string (`if metric_name:`). -/
def truthy_str : Option String → Bool
  | some s => s ≠ ""
  | none => false

/-- A machine-readable stand-in for the `trigger_reasons_list` strings the
source assembles with f-strings (the rendered text carries the same data). -/
inductive TriggerReason where
  | matchedAll (kws : List String)
  | matchedAny (kws : List String)
  | metricMet (metric : Option String) (value : ℚ) (operator : String) (threshold : ℚ)
  | noRuleMatched
  deriving Repr, DecidableEq

/-- One predicted cause. -/
structure Cause where
  type : String
  confidence : ℚ
  recommendation : String
  impact : ℚ
  trigger_reason : List TriggerReason
  deriving Repr, DecidableEq

/-- The simplified-schema rewrites at the top of the rule loop: a rule
without either keyword key gets its own name as `keywords_any`, and a rule
without `metrics_thresholds` but with `metric_threshold` gets a single
name-contains condition with operator `>`. -/
def apply_simplified_schema (rule_name : String) (rd : Rule) : Rule :=
  let rd1 :=
    if rd.keywords_any = none ∧ rd.keywords_all = none then
      { rd with keywords_any := some [rule_name] }
    else rd
  match rd1.metrics_thresholds, rd1.metric_threshold with
  | none, some t =>
    let c : MetricCond :=
      { metric_contains := some rule_name, threshold := t, operator := some ">" }
    { rd1 with metrics_thresholds := some [c] }
  | _, _ => rd1

/-- `_metric_value_from_contains`: the maximal numeric metric value whose
name contains the substring, case-insensitive; `None` for an empty substring
or when no name matches. -/
def metric_value_from_contains (metrics : List (String × ℚ)) (substr : String) :
    Option ℚ :=
  if substr = "" then none
  else
    let substr_l := py_lower substr
    let candidates := metrics.filterMap
      (fun p => if str_contains (py_lower p.1) substr_l then some p.2 else none)
    candidates.max?

/-- The metric value a condition refers to: by exact (truthy) name via
`metrics.get`, else by name-contains, else `None`. -/
def metric_val (metrics : List (String × ℚ)) (c : MetricCond) : Option ℚ :=
  if truthy_str c.metric then dict_get metrics (c.metric.getD "")
  else if truthy_str c.metric_contains then
    metric_value_from_contains metrics (c.metric_contains.getD "")
  else none

/-- Operator dispatch; `none` for an unsupported operator, which the source
skips with `continue` (the condition neither fails nor records a reason). -/
def apply_operator (op : String) (v t : ℚ) : Option Bool :=
  if op = ">" then some (t < v)
  else if op = ">=" then some (t ≤ v)
  else if op = "<" then some (v < t)
  else if op = "<=" then some (v ≤ t)
  else if op = "==" then some (v = t)
  else none

/-- The `metrics_thresholds` loop: all conditions must hold; a missing metric
or a failed comparison breaks out with `False`; an unsupported operator is
skipped.  Also returns the trigger reasons of the satisfied conditions, in
order. -/
def metric_conds_met (metrics : List (String × ℚ)) :
    List MetricCond → Bool × List TriggerReason
  | [] => (true, [])
  | c :: cs =>
    match metric_val metrics c with
    | none => (false, [])
    | some v =>
      let op := c.operator.getD ">"
      match apply_operator op v c.threshold with
      | none => metric_conds_met metrics cs
      | some true =>
        let (met, reasons) := metric_conds_met metrics cs
        (met, .metricMet c.metric v op c.threshold :: reasons)
      | some false => (false, [])

/-- The `keywords_all` group: met when absent or empty; otherwise every
keyword must occur as a whole word in the lowered description. -/
def keywords_all_met (desc : List Char) (rd : Rule) : Bool :=
  match rd.keywords_all with
  | some (k :: ks) => (k :: ks).all (fun kw => word_search desc (py_lower kw))
  | _ => true

/-- The `keywords_any` group: met when absent or empty; otherwise some
keyword must occur as a whole word in the lowered description. -/
def keywords_any_met (desc : List Char) (rd : Rule) : Bool :=
  match rd.keywords_any with
  | some (k :: ks) => (k :: ks).any (fun kw => word_search desc (py_lower kw))
  | _ => true

/-- The keywords of `keywords_any` that matched (for the trigger reason). -/
def matched_any_kws (desc : List Char) (rd : Rule) : List String :=
  (rd.keywords_any.getD []).filter (fun kw => word_search desc (py_lower kw))

/-- The combined trigger decision (lines 207-217): with both condition groups
present all of them must be met; with only one group present that group
decides; with neither group the rule never fires. -/
def rule_triggered (desc : List Char) (metrics : List (String × ℚ))
    (rd : Rule) : Bool :=
  let has_kw := truthy_list rd.keywords_all || truthy_list rd.keywords_any
  let has_metric := truthy_list rd.metrics_thresholds
  let all_met := keywords_all_met desc rd
  let any_met := keywords_any_met desc rd
  let metric_met := (metric_conds_met metrics (rd.metrics_thresholds.getD [])).1
  if has_kw && has_metric then all_met && any_met && metric_met
  else if has_kw then all_met && any_met
  else if has_metric then metric_met
  else false

/-- The boost condition of lines 228-230: a (present) keyword group was met
and the (present) metric group was met. -/
def both_groups_fired (desc : List Char) (metrics : List (String × ℚ))
    (rd : Rule) : Bool :=
  ((keywords_all_met desc rd && truthy_list rd.keywords_all) ||
    (keywords_any_met desc rd && truthy_list rd.keywords_any)) &&
  ((metric_conds_met metrics (rd.metrics_thresholds.getD [])).1 &&
    truthy_list rd.metrics_thresholds)

/-- The trigger reasons accumulated for a rule, in the order of the source:
the all-keywords reason (when the group is present and fully matched), the
any-keywords reason (when the group is present and some keyword matched),
then one reason per satisfied metric condition. -/
def trigger_reasons (desc : List Char) (metrics : List (String × ℚ))
    (rd : Rule) : List TriggerReason :=
  (if truthy_list rd.keywords_all && keywords_all_met desc rd then
    [TriggerReason.matchedAll (rd.keywords_all.getD [])] else []) ++
  (if truthy_list rd.keywords_any && keywords_any_met desc rd then
    [TriggerReason.matchedAny (matched_any_kws desc rd)] else []) ++
  (metric_conds_met metrics (rd.metrics_thresholds.getD [])).2

/-- The cause dictionary appended for a triggered rule, with the confidence
boost capped at `0.95` and rounded to 2 decimals (`round(final_confidence,
2)`). -/
def cause_of (cfg : RCAConfig) (desc : List Char) (metrics : List (String × ℚ))
    (rd : Rule) : Cause :=
  let base := rd.base_confidence.getD cfg.default_confidence
  let final_confidence :=
    if both_groups_fired desc metrics rd then
      min (19/20) (base + cfg.multi_condition_confidence_boost)
    else base
  { type := rd.cause.getD "Unknown"
    confidence := py_round 2 final_confidence
    recommendation := rd.recommendation.getD "Review incident details."
    impact := rd.impact_score.getD (1/2)
    trigger_reason := trigger_reasons desc metrics rd }

/-- One iteration of the rule loop: rewrite the rule through the simplified
schema, and emit a cause exactly when it triggers. -/
def evaluate_rule (cfg : RCAConfig) (desc : List Char)
    (metrics : List (String × ℚ)) (named_rule : String × Rule) : Option Cause :=
  let rd := apply_simplified_schema named_rule.1 named_rule.2
  if rule_triggered desc metrics rd then some (cause_of cfg desc metrics rd)
  else none

/-- The fallback candidate emitted when no rule matched. -/
def fallback_cause : Cause :=
  { type := "Unknown/Complex Issue"
    confidence := 3/10
    recommendation := "Requires further detailed investigation. Review logs and full telemetry."
    impact := 1/2
    trigger_reason := [.noRuleMatched] }

/-- The sort key comparison of `potential_causes.sort(key=lambda x:
(x['impact'], x['confidence']), reverse=True)`: strict lexicographic
greater-than on `(impact, confidence)`. -/
def cause_key_gt (a b : Cause) : Bool :=
  b.impact < a.impact || (a.impact = b.impact && b.confidence < a.confidence)

/-- Insert into a descending list: skip the strictly greater prefix, so that
elements with equal keys keep their original relative order (Python's sort is
stable, also with `reverse=True`). -/
def insert_desc (a : Cause) : List Cause → List Cause
  | [] => [a]
  | b :: bs => if cause_key_gt b a then b :: insert_desc a bs else a :: b :: bs

/-- Stable descending sort by `(impact, confidence)`. -/
def sort_causes_desc : List Cause → List Cause
  | [] => []
  | a :: rest => insert_desc a (sort_causes_desc rest)

/-- The candidate list before the fallback and the sort: one cause per
triggered rule, in rule order. -/
def potential_causes (cfg : RCAConfig) (rules : List (String × Rule))
    (incident : Incident) : List Cause :=
  rules.filterMap
    (evaluate_rule cfg (py_lower incident.description) (resolved_metrics incident))

/-- `SimpleRCAEstimator.predict_root_cause`. -/
def predict_root_cause (cfg : RCAConfig) (rules : List (String × Rule))
    (incident : Incident) : List Cause :=
  let causes := potential_causes cfg rules incident
  let with_fallback := if causes = [] then [fallback_cause] else causes
  sort_causes_desc with_fallback

/-! ## TelemetryProcessor: data preparation (Snapshot Normalizer)

Embeds `_prepare_data` and `_handle_missing_values`.  A DataFrame is a
rectangular table: a list of named, typed columns and row-major cells; a
missing value (NaN / NaT) is `none`.  `pd.to_datetime` on the timestamp
column is the identity here since timestamps are already modelled as
rationals (seconds); `drop_duplicates` keeps the first occurrence of each
duplicated row.  `df.sort_values('timestamp')` uses pandas' default
`kind='quicksort'`, which is documented as not stable: on rows with equal
timestamps the output order is unspecified.  The sorting step therefore
enters as a function parameter constrained by exactly the pandas contract -
the output is a permutation of the rows, ascending in the timestamp key -
and nothing more; `ties_last_sort` below is one admissible implementation
that reverses runs of equal timestamps, used to show the contract does not
force identity on tied-timestamp batches. -/

/-- The pandas dtype of a column, as far as `_handle_missing_values`
distinguishes them: `select_dtypes(include=np.number)`,
`select_dtypes(include='object')`, `select_dtypes(include='bool')`; datetime
columns are touched by none of the three loops. -/
inductive DType where
  | num
  | obj
  | boolean
  | dtime
  deriving Repr, DecidableEq

/-- A non-missing cell value. -/
inductive CellVal where
  | num (q : ℚ)
  | str (s : String)
  | boolean (b : Bool)
  deriving Repr, DecidableEq

/-- A cell: `none` is NaN / NaT. -/
abbrev Cell := Option CellVal

/-- A DataFrame: named typed columns and row-major cells. -/
structure DFrame where
  cols : List (String × DType)
  rows : List (List Cell)
  deriving Repr, DecidableEq

/-- The configuration keys `_handle_missing_values` reads. -/
structure PrepConfig where
  numerical_nan_fill_strategy : String := "mean"
  categorical_nan_fill_strategy : String := "unknown"
  deriving Repr

/-- The numeric values present in a column. -/
def col_num_vals (rows : List (List Cell)) (j : ℕ) : List ℚ :=
  rows.filterMap (fun r =>
    match r.getD j none with
    | some (CellVal.num q) => some q
    | _ => none)

/-- The fill value of a numeric column under the configured strategy.  The
`pd.isna(fill_value)` fallback (an all-missing column has NaN mean/median)
maps to `0`, as in the source. -/
def num_fill_value (strategy : String) (vals : List ℚ) : ℚ :=
  if strategy = "median" then
    match sort_asc vals with
    | [] => 0
    | h :: t =>
      let s := h :: t
      let n := s.length
      if n % 2 = 1 then s.getD (n / 2) h
      else (s.getD (n / 2 - 1) h + s.getD (n / 2) h) / 2
  else if strategy = "zero" then 0
  else if vals = [] then 0 else vals.sum / vals.length

/-- The per-column fill value `_handle_missing_values` computes; `none` for a
datetime column, which no fill loop touches. -/
def col_fill (cfg : PrepConfig) (rows : List (List Cell)) (j : ℕ) :
    DType → Option CellVal
  | DType.num => some (.num (num_fill_value cfg.numerical_nan_fill_strategy
      (col_num_vals rows j)))
  | DType.obj => some (.str cfg.categorical_nan_fill_strategy)
  | DType.boolean => some (.boolean false)
  | DType.dtime => none

/-- `fillna` on one cell: replace `none` with the fill value, keep present
values. -/
def fill_cell (p : Cell × Option CellVal) : Cell :=
  match p.1 with
  | none =>
    (match p.2 with
     | some v => some v
     | none => none)
  | some v => some v

/-- `_handle_missing_values`: fill each numeric column with its
strategy-dependent fill value (`0` when that is itself NaN), each object
column with the categorical sentinel, each boolean column with `False`. -/
def handle_missing_values (cfg : PrepConfig) (df : DFrame) : DFrame :=
  let fills := (List.range df.cols.length).zipWith
    (fun j c => col_fill cfg df.rows j c.2) df.cols
  ⟨df.cols, df.rows.map (fun r => (r.zip fills).map fill_cell)⟩

/-- `drop_duplicates` (keep the first occurrence). -/
def drop_duplicates_aux (seen : List (List Cell)) :
    List (List Cell) → List (List Cell)
  | [] => []
  | r :: rs =>
    if r ∈ seen then drop_duplicates_aux seen rs
    else r :: drop_duplicates_aux (r :: seen) rs

/-- `df.drop_duplicates()`. -/
def drop_duplicates (df : DFrame) : DFrame :=
  ⟨df.cols, drop_duplicates_aux [] df.rows⟩

/-- The index of the `timestamp` column. -/
def ts_idx (df : DFrame) : Option ℕ :=
  df.cols.findIdx? (fun c => c.1 = "timestamp")

/-- The sort key of a row under the timestamp column `j` (clean inputs have a
numeric timestamp in every row). -/
def ts_val (j : ℕ) (r : List Cell) : ℚ :=
  match r.getD j none with
  | some (CellVal.num q) => q
  | _ => 0

/-- Everything pandas' `sort_values` (default `kind='quicksort'`, not
stable) guarantees about its output, and nothing more: the rows are a
permutation of the input, ascending in the timestamp key.  With tied
timestamps the relative order of the tied rows is unspecified. -/
def pandas_sort_contract (sortF : ℕ → List (List Cell) → List (List Cell)) :
    Prop :=
  ∀ j l, (sortF j l).Perm l ∧
    (sortF j l).Pairwise (fun r s => ts_val j r ≤ ts_val j s)

/-- `df.sort_values('timestamp')` when the column exists, identity
otherwise; the sorting algorithm itself is the parameter `sortF`,
constrained only by `pandas_sort_contract`. -/
def sort_by_timestamp (sortF : ℕ → List (List Cell) → List (List Cell))
    (df : DFrame) : DFrame :=
  match ts_idx df with
  | none => df
  | some j => ⟨df.cols, sortF j df.rows⟩

/-- `_prepare_data`: handle missing values, convert timestamps (identity
here), drop duplicate rows, sort by timestamp when present. -/
def prepare_data (sortF : ℕ → List (List Cell) → List (List Cell))
    (cfg : PrepConfig) (df : DFrame) : DFrame :=
  sort_by_timestamp sortF (drop_duplicates (handle_missing_values cfg df))

/-- An ascending insertion that walks past every row whose key is less than
or equal to the new row's key: rows with equal timestamps end up in reversed
relative order.  A correct but non-stable sort, as pandas' default quicksort
is allowed to be. -/
def insert_ts_le (j : ℕ) (r : List Cell) :
    List (List Cell) → List (List Cell)
  | [] => [r]
  | s :: ss =>
    if ts_val j s ≤ ts_val j r then s :: insert_ts_le j r ss else r :: s :: ss

/-- The insertion sort built on `insert_ts_le`: a concrete sorting function
satisfying `pandas_sort_contract` that reverses runs of equal timestamps. -/
def ties_last_sort (j : ℕ) : List (List Cell) → List (List Cell)
  | [] => []
  | r :: rs => insert_ts_le j r (ties_last_sort j rs)

/-! ## Concrete instantiations used by witnesses and counterexamples -/

/-- Column mean of a row-major matrix (entries beyond a ragged row count as
`0`; the pipeline only ever builds rectangular matrices). -/
def mat_col_mean (m : List (List ℚ)) (j : ℕ) : ℚ :=
  if m.length = 0 then 0
  else (m.map (fun r => r.getD j 0)).sum / m.length

/-- `StandardScaler.fit_transform` on the single-row matrices this pipeline
produces: every column std is zero, sklearn substitutes a unit scale, and the
output is the centred matrix (all zeros).  On a one-row input the centring
below is therefore exactly sklearn's output; multi-row behaviour (which
divides by a real square root) is always quantified over in the theorems. -/
def scaler_center : MatStep := fun m =>
  .ok (m.map (fun r => (List.range r.length).map (fun j => r.getD j 0 - mat_col_mean m j)))

/-- A placeholder for `PCA.fit_transform` at call sites where projection is
skipped (fewer than 2 columns); never reached in the concrete scenarios. -/
def pca_id : MatStep := fun m => .ok m

/-- A value for the covariance branch of the Mahalanobis computation, which
is unreachable on this pipeline's one-row matrices; the theorems quantify
over this argument, so nothing depends on the choice. -/
def covariance_branch_unused : List (List ℚ) → List ℚ := fun _ => []

/-- The batch of the spec's anomaly scenario:
`[{cpu_usage_avg: 50}, {cpu_usage_avg: 55}, {cpu_usage_avg: 95}]`. -/
def scenario_batch : List (List (String × ℚ)) :=
  [[("cpu_usage_avg", 50)], [("cpu_usage_avg", 55)], [("cpu_usage_avg", 95)]]

/-- The configuration of the spec's anomaly scenario: anomaly feature list
`["cpu_usage_avg"]`, percentile threshold 95 (the default). -/
def scenario_cfg : TPConfig :=
  { anomaly_detection_features := ["cpu_usage_avg"] }

/-! ## Helper lemmas about the anomaly path -/

/-- Every error value of `anomaly_core` is a single error detail. -/
theorem anomaly_core_error_shape (scalerF pcaF : MatStep) (cfg : TPConfig)
    (fl : List (String × ℚ)) (ds : List AnomalyDetail)
    (h : anomaly_core scalerF pcaF cfg fl = .error ds) :
    ∃ msg, ds = [.errorDetail msg] := by
  unfold anomaly_core at h
  repeat' split at h
  all_goals first
    | exact ⟨_, ((Except.error.injEq _ _).mp h).symm⟩
    | exact Except.noConfusion h

/-- Computing `_prepare_feature_matrix` when features are configured. -/
theorem prepare_feature_matrix_eq (cfg : TPConfig) (fl : List (String × ℚ))
    (hfeat : cfg.anomaly_detection_features ≠ []) :
    prepare_feature_matrix cfg fl =
      some ([cfg.anomaly_detection_features.map (fun n => (dict_get fl n).getD 0)],
        cfg.anomaly_detection_features) := by
  unfold prepare_feature_matrix
  rw [if_neg hfeat]
  exact if_neg (by simpa using hfeat)

/-- The shape of a successfully prepared feature matrix: one row, the
configured names. -/
theorem prepare_feature_matrix_shape (cfg : TPConfig) (fl : List (String × ℚ))
    (fm : List (List ℚ)) (names : List String)
    (h : prepare_feature_matrix cfg fl = some (fm, names)) :
    ∃ row, fm = [row] ∧ names = cfg.anomaly_detection_features := by
  by_cases h0 : cfg.anomaly_detection_features = []
  · unfold prepare_feature_matrix at h
    rw [if_pos h0] at h
    exact Option.noConfusion h
  · rw [prepare_feature_matrix_eq cfg fl h0] at h
    simp only [Option.some.injEq, Prod.mk.injEq] at h
    exact ⟨_, h.1.symm, h.2.symm⟩

/-- When anomaly features are configured, the prepared matrix exists and has
exactly one row (the batch collapsed to per-feature aggregates). -/
theorem prepare_feature_matrix_one_row (cfg : TPConfig)
    (fl : List (String × ℚ)) (hfeat : cfg.anomaly_detection_features ≠ []) :
    ∃ row names, prepare_feature_matrix cfg fl = some ([row], names) := by
  rw [prepare_feature_matrix_eq cfg fl hfeat]
  exact ⟨_, _, rfl⟩

/-- On a successful run of the core, the PCA features inherit the single row
of the prepared matrix (row-count preservation of the two external
transforms). -/
theorem anomaly_core_ok_one_row (scalerF pcaF : MatStep) (cfg : TPConfig)
    (fl : List (String × ℚ)) (fm : List (List ℚ)) (names : List String)
    (pf : List (List ℚ))
    (hscaler : ∀ m m', scalerF m = .ok m' → m'.length = m.length)
    (hpca : ∀ m m', pcaF m = .ok m' → m'.length = m.length)
    (h : anomaly_core scalerF pcaF cfg fl = .ok (fm, names, pf)) :
    fm.length = 1 ∧ pf.length = 1 := by
  unfold anomaly_core at h
  cases hp : prepare_feature_matrix cfg fl with
  | none => rw [hp] at h; exact Except.noConfusion h
  | some v =>
    obtain ⟨fm0, names0⟩ := v
    obtain ⟨row, hrow, -⟩ := prepare_feature_matrix_shape _ _ _ _ hp
    simp only [hp] at h
    by_cases hsz : mat_size fm0 = 0
    · rw [if_pos hsz] at h; exact Except.noConfusion h
    · rw [if_neg hsz] at h
      cases hs : scalerF fm0 with
      | error e => simp only [hs] at h; exact Except.noConfusion h
      | ok scaled =>
        simp only [hs] at h
        have hslen : scaled.length = 1 := by rw [hscaler _ _ hs, hrow]; rfl
        have h0 : ¬ scaled.length = 0 := by omega
        rw [if_neg h0] at h
        by_cases hcols : (scaled.headD []).length < 2
        · rw [if_pos hcols] at h
          simp only [] at h
          by_cases hpz : mat_size scaled = 0
          · rw [if_pos hpz] at h; exact Except.noConfusion h
          · rw [if_neg hpz] at h
            simp only [Except.ok.injEq, Prod.mk.injEq] at h
            obtain ⟨h1, -, h3⟩ := h
            constructor
            · rw [← h1, hrow]; rfl
            · rw [← h3, hslen]
        · rw [if_neg hcols] at h
          cases hq : pcaF scaled with
          | error e => simp only [hq] at h; exact Except.noConfusion h
          | ok pf2 =>
            simp only [hq] at h
            by_cases hpz : mat_size pf2 = 0
            · rw [if_pos hpz] at h; exact Except.noConfusion h
            · rw [if_neg hpz] at h
              simp only [Except.ok.injEq, Prod.mk.injEq] at h
              obtain ⟨h1, -, h3⟩ := h
              constructor
              · rw [← h1, hrow]; rfl
              · rw [← h3, hpca _ _ hq, hslen]

/-- The percentile of a one-element distribution is that element, whatever
the percentile. -/
theorem np_percentile_singleton (d q : ℚ) : np_percentile [d] q = d := by
  unfold np_percentile
  show (if _ then _ else _) = d
  norm_num [sort_asc, insert_asc]

/-- The central helper behind the one-row claims: with row-count-preserving
external transforms, the distance list is all zeros and no anomaly is ever
flagged. -/
theorem detect_anomalies_one_row (scalerF pcaF : MatStep)
    (general : List (List ℚ) → List ℚ) (cfg : TPConfig)
    (fl : List (String × ℚ))
    (hscaler : ∀ m m', scalerF m = .ok m' → m'.length = m.length)
    (hpca : ∀ m m', pcaF m = .ok m' → m'.length = m.length) :
    (detect_anomalies scalerF pcaF general cfg fl).detected = false ∧
    ∀ d ∈ anomaly_distances scalerF pcaF general cfg fl, d = 0 := by
  cases hc : anomaly_core scalerF pcaF cfg fl with
  | error ds =>
    refine ⟨?_, ?_⟩
    · unfold detect_anomalies; rw [hc]
    · unfold anomaly_distances; simp only [hc]; simp
  | ok v =>
    obtain ⟨fm, names, pf⟩ := v
    obtain ⟨-, hpf⟩ := anomaly_core_ok_one_row _ _ _ _ _ _ _ hscaler hpca hc
    have hdist : calculate_mahalanobis_distance general pf = [0] := by
      unfold calculate_mahalanobis_distance
      rw [if_pos (by omega), hpf]
      rfl
    refine ⟨?_, ?_⟩
    · unfold detect_anomalies
      simp only [hc, hdist, np_percentile_singleton]
      rfl
    · unfold anomaly_distances
      simp only [hc, hdist]
      simp

/-- The flagging step detects exactly when some distance strictly exceeds the
threshold. -/
theorem flag_anomalies_detected_iff (distances : List ℚ) (thr : ℚ)
    (fs : List (String × ℚ)) :
    (flag_anomalies distances thr fs).detected = true ↔
      ∃ d ∈ distances, thr < d := by
  unfold flag_anomalies
  cases hidx : (List.range distances.length).filter
      (fun i => thr < distances.getD i 0) with
  | nil =>
    simp only [Bool.false_eq_true, false_iff]
    rintro ⟨d, hd, hlt⟩
    obtain ⟨i, hi, rfl⟩ := List.mem_iff_getElem.mp hd
    have := List.filter_eq_nil_iff.mp hidx i (List.mem_range.mpr hi)
    rw [List.getD_eq_getElem distances 0 hi] at this
    simp [hlt] at this
  | cons i rest =>
    simp only [true_iff]
    have hmem : i ∈ (List.range distances.length).filter
        (fun i => thr < distances.getD i 0) := by
      rw [hidx]; exact List.mem_cons_self i rest
    obtain ⟨hir, hp⟩ := List.mem_filter.mp hmem
    have hi := List.mem_range.mp hir
    refine ⟨distances.getD i 0, ?_, by simpa using hp⟩
    rw [List.getD_eq_getElem distances 0 hi]
    exact List.getElem_mem hi

/-- Any scored detail of the flagging step carries the threshold it was
compared against, and its distance strictly exceeds it. -/
theorem flag_anomalies_scored_spec (distances : List ℚ) (thr : ℚ)
    (fs : List (String × ℚ)) (ds tv : ℚ) (fs' : List (String × ℚ))
    (h : AnomalyDetail.scored ds tv fs' ∈ (flag_anomalies distances thr fs).details) :
    tv = thr ∧ tv < ds := by
  unfold flag_anomalies at h
  cases hidx : (List.range distances.length).filter
      (fun i => thr < distances.getD i 0) with
  | nil => rw [hidx] at h; simp at h
  | cons i rest =>
    rw [hidx] at h
    simp only [List.mem_singleton, AnomalyDetail.scored.injEq] at h
    obtain ⟨h1, h2, -⟩ := h
    have hmem : i ∈ (List.range distances.length).filter
        (fun i => thr < distances.getD i 0) := by
      rw [hidx]; exact List.mem_cons_self i rest
    obtain ⟨-, hp⟩ := List.mem_filter.mp hmem
    subst h1 h2
    exact ⟨rfl, by simpa using hp⟩

/-- C1 (invariants): for every batch with at least 2 samples and a non-empty
configured anomaly feature list, the anomaly result satisfies
`detected == (distance_score > threshold)`: it is detected exactly when some
Mahalanobis distance of the batch strictly exceeds the threshold, every
reported `distance_score` strictly exceeds the reported `threshold_value`,
and the reported threshold equals the configured percentile (default the
95th) of the batch's own distance distribution, not a fixed constant. -/
theorem C1_detected_iff_distance_above_percentile_threshold
    (scalerF pcaF : MatStep) (general : List (List ℚ) → List ℚ)
    (cfg : TPConfig) (derived : List (String × ℚ))
    (batch : List (List (String × ℚ)))
    (hbatch : 2 ≤ batch.length)
    (hfeat : cfg.anomaly_detection_features ≠ []) :
    ((detect_anomalies scalerF pcaF general cfg
        (flatten_features_for_detection derived batch)).detected = true ↔
      ∃ d ∈ anomaly_distances scalerF pcaF general cfg
          (flatten_features_for_detection derived batch),
        np_percentile (anomaly_distances scalerF pcaF general cfg
            (flatten_features_for_detection derived batch))
          cfg.anomaly_threshold_percentile < d) ∧
    (∀ ds tv fs, AnomalyDetail.scored ds tv fs ∈
        (detect_anomalies scalerF pcaF general cfg
          (flatten_features_for_detection derived batch)).details →
      tv = np_percentile (anomaly_distances scalerF pcaF general cfg
            (flatten_features_for_detection derived batch))
          cfg.anomaly_threshold_percentile ∧ tv < ds) := by
  cases hc : anomaly_core scalerF pcaF cfg
      (flatten_features_for_detection derived batch) with
  | error ds =>
    obtain ⟨msg, rfl⟩ := anomaly_core_error_shape _ _ _ _ _ hc
    unfold detect_anomalies anomaly_distances
    simp only [hc]
    refine ⟨by simp, ?_⟩
    intro ds tv fs hmem
    simp at hmem
  | ok v =>
    obtain ⟨fm, names, pf⟩ := v
    unfold detect_anomalies anomaly_distances
    simp only [hc]
    exact ⟨flag_anomalies_detected_iff _ _ _,
      fun ds tv fs h => flag_anomalies_scored_spec _ _ _ _ _ _ h⟩

/-- Witness for C1 at a concrete two-sample batch and feature list. -/
theorem C1_witness :
    ((detect_anomalies scaler_center pca_id covariance_branch_unused
        scenario_cfg
        (flatten_features_for_detection []
          [[("cpu_usage_avg", 50)], [("cpu_usage_avg", 60)]])).detected = true ↔
      ∃ d ∈ anomaly_distances scaler_center pca_id covariance_branch_unused
          scenario_cfg
          (flatten_features_for_detection []
            [[("cpu_usage_avg", 50)], [("cpu_usage_avg", 60)]]),
        np_percentile (anomaly_distances scaler_center pca_id
            covariance_branch_unused scenario_cfg
            (flatten_features_for_detection []
              [[("cpu_usage_avg", 50)], [("cpu_usage_avg", 60)]]))
          scenario_cfg.anomaly_threshold_percentile < d) ∧
    (∀ ds tv fs, AnomalyDetail.scored ds tv fs ∈
        (detect_anomalies scaler_center pca_id covariance_branch_unused
          scenario_cfg
          (flatten_features_for_detection []
            [[("cpu_usage_avg", 50)], [("cpu_usage_avg", 60)]])).details →
      tv = np_percentile (anomaly_distances scaler_center pca_id
            covariance_branch_unused scenario_cfg
            (flatten_features_for_detection []
              [[("cpu_usage_avg", 50)], [("cpu_usage_avg", 60)]]))
          scenario_cfg.anomaly_threshold_percentile ∧ tv < ds) :=
  C1_detected_iff_distance_above_percentile_threshold
    scaler_center pca_id covariance_branch_unused scenario_cfg []
    [[("cpu_usage_avg", 50)], [("cpu_usage_avg", 60)]]
    (by decide) (by decide)

/-- C10 (invariants): on the flattened detection path the prepared feature
matrix always has exactly one row, the Mahalanobis step returns all-zero
distances for fewer than 2 rows, every distance of the run is zero (so the
threshold is the percentile of that single-element distribution), and
therefore `_detect_anomalies` on this path returns `detected = false`
regardless of the batch's values. -/
theorem C10_one_row_path_never_detects
    (scalerF pcaF : MatStep) (general : List (List ℚ) → List ℚ)
    (cfg : TPConfig) (fl : List (String × ℚ))
    (hfeat : cfg.anomaly_detection_features ≠ [])
    (hscaler : ∀ m m', scalerF m = .ok m' → m'.length = m.length)
    (hpca : ∀ m m', pcaF m = .ok m' → m'.length = m.length) :
    (∃ row names, prepare_feature_matrix cfg fl = some ([row], names)) ∧
    (∀ m, m.length < 2 →
      calculate_mahalanobis_distance general m = List.replicate m.length 0) ∧
    (∀ d ∈ anomaly_distances scalerF pcaF general cfg fl, d = 0) ∧
    (detect_anomalies scalerF pcaF general cfg fl).detected = false := by
  obtain ⟨hdet, hzero⟩ :=
    detect_anomalies_one_row scalerF pcaF general cfg fl hscaler hpca
  refine ⟨prepare_feature_matrix_one_row cfg fl hfeat, ?_, hzero, hdet⟩
  intro m hm
  unfold calculate_mahalanobis_distance
  rw [if_pos hm]

/-- Witness for C10 at a concrete flattened dictionary. -/
theorem C10_witness :
    (∃ row names, prepare_feature_matrix scenario_cfg
      [("cpu_usage_avg", 80)] = some ([row], names)) ∧
    (∀ m, m.length < 2 →
      calculate_mahalanobis_distance covariance_branch_unused m =
        List.replicate m.length 0) ∧
    (∀ d ∈ anomaly_distances scaler_center pca_id covariance_branch_unused
        scenario_cfg [("cpu_usage_avg", 80)], d = 0) ∧
    (detect_anomalies scaler_center pca_id covariance_branch_unused
      scenario_cfg [("cpu_usage_avg", 80)]).detected = false :=
  C10_one_row_path_never_detects scaler_center pca_id covariance_branch_unused
    scenario_cfg [("cpu_usage_avg", 80)] (by decide)
    (fun m m' h => by
      simp only [scaler_center, Except.ok.injEq] at h
      rw [← h, List.length_map])
    (fun m m' h => by
      simp only [pca_id, Except.ok.injEq] at h
      rw [h])

/-- C2 counterexample: on the spec's scenario batch
`[{cpu_usage_avg: 50}, {cpu_usage_avg: 55}, {cpu_usage_avg: 95}]` with
anomaly feature list `["cpu_usage_avg"]` and percentile threshold 95 the
scorer reports `detected = false`, not `detected = true`: the flattened
feature dictionary maps `cpu_usage_avg` to the batch mean `200/3`, the
feature matrix has a single row, and the single zero distance never exceeds
its own 95th percentile.  (The derived-feature entries of the flattened
dictionary live under other keys and cannot change this; the amended theorem
quantifies over them.) -/
theorem C2_counterexample :
    (detect_anomalies scaler_center pca_id covariance_branch_unused
        scenario_cfg
        (flatten_features_for_detection [] scenario_batch)).detected = false ∧
    dict_get (flatten_features_for_detection [] scenario_batch)
      "cpu_usage_avg" = some (200/3) := by
  constructor
  · exact (detect_anomalies_one_row scaler_center pca_id
      covariance_branch_unused scenario_cfg _
      (fun m m' h => by
        simp only [scaler_center, Except.ok.injEq] at h
        rw [← h, List.length_map])
      (fun m m' h => by
        simp only [pca_id, Except.ok.injEq] at h
        rw [h])).1
  · simp [flatten_features_for_detection, scenario_batch, df_columns, col_mean,
      dict_get, dict_set, pick_col, List.filterMap]
    norm_num

/-- C2 amended: for the scenario batch, feature list and percentile, the
scorer reports `detected = false` — whatever the derived-feature entries of
the flattened dictionary and whatever (row-count-preserving) standardizer and
projection are used — because the detection path collapses the batch into a
single aggregated sample whose zero distance cannot strictly exceed the
percentile of its own one-element distribution. -/
theorem C2_amended_scenario_not_detected
    (derived : List (String × ℚ)) (scalerF pcaF : MatStep)
    (general : List (List ℚ) → List ℚ)
    (hscaler : ∀ m m', scalerF m = .ok m' → m'.length = m.length)
    (hpca : ∀ m m', pcaF m = .ok m' → m'.length = m.length) :
    (detect_anomalies scalerF pcaF general scenario_cfg
      (flatten_features_for_detection derived scenario_batch)).detected =
        false :=
  (detect_anomalies_one_row scalerF pcaF general scenario_cfg _
    hscaler hpca).1

/-- Witness for the amended C2 at concrete transforms. -/
theorem C2_amended_witness :
    (detect_anomalies scaler_center pca_id covariance_branch_unused
      scenario_cfg
      (flatten_features_for_detection [("cpu_usage_volatility", 24)]
        scenario_batch)).detected = false :=
  C2_amended_scenario_not_detected [("cpu_usage_volatility", 24)]
    scaler_center pca_id covariance_branch_unused
    (fun m m' h => by
      simp only [scaler_center, Except.ok.injEq] at h
      rw [← h, List.length_map])
    (fun m m' h => by
      simp only [pca_id, Except.ok.injEq] at h
      rw [h])

/-- C7 (error handling): anomaly scoring never raises to its caller.  The
return type of the embedded `detect_anomalies` is total, and whenever an
internal numerical step fails — the standardizer raises, or the projection
raises when it is actually invoked — the result is `detected = false` with
the error detail string, instead of a propagated exception. -/
theorem C7_detect_anomalies_catches_internal_failures
    (scalerF pcaF : MatStep) (general : List (List ℚ) → List ℚ)
    (cfg : TPConfig) (fl : List (String × ℚ)) (fm : List (List ℚ))
    (names : List String) (e : String) :
    (prepare_feature_matrix cfg fl = some (fm, names) →
      mat_size fm ≠ 0 →
      scalerF fm = .error e →
      detect_anomalies scalerF pcaF general cfg fl =
        ⟨false, [.errorDetail e]⟩) ∧
    (∀ scaled, prepare_feature_matrix cfg fl = some (fm, names) →
      mat_size fm ≠ 0 →
      scalerF fm = .ok scaled →
      scaled ≠ [] →
      2 ≤ (scaled.headD []).length →
      pcaF scaled = .error e →
      detect_anomalies scalerF pcaF general cfg fl =
        ⟨false, [.errorDetail e]⟩) := by
  constructor
  · intro hprep hsz herr
    unfold detect_anomalies anomaly_core
    simp only [hprep, if_neg hsz, herr]
  · intro scaled hprep hsz hok hne hcols herr
    unfold detect_anomalies anomaly_core
    simp only [hprep, if_neg hsz, hok]
    have h0 : ¬ scaled.length = 0 := fun h => hne (List.length_eq_zero.mp h)
    rw [if_neg h0, if_neg (Nat.not_lt.mpr hcols)]
    simp only [herr]

/-- Witness for C7: a failing standardizer turns into an error-detail result
with `detected = false`. -/
theorem C7_witness :
    detect_anomalies (fun _ => .error "numerical failure") pca_id
      covariance_branch_unused scenario_cfg [("cpu_usage_avg", 80)] =
      ⟨false, [.errorDetail "numerical failure"]⟩ :=
  (C7_detect_anomalies_catches_internal_failures
    (fun _ => .error "numerical failure") pca_id covariance_branch_unused
    scenario_cfg [("cpu_usage_avg", 80)] [[80]] ["cpu_usage_avg"]
    "numerical failure").1 (by decide) (by decide) rfl

/-- C3 (functional correctness): for every metric column with fewer than 3
valid (non-missing) time-paired points, the trend analyzer returns exactly
the neutral record `slope = 0`, `p_value = 1`, `significant = false`,
`direction = stable`, with `intercept`, `r_value` and `stderr` all `0` —
whatever the external regression routine would return. -/
theorem C3_insufficient_points_give_neutral_trend
    (linregressF : List (ℚ × ℚ) → Option (ℚ × ℚ × ℚ × ℚ × ℚ))
    (cfg : TPConfig) (time_numeric series_data : List (Option ℚ))
    (h : ((time_numeric.zip series_data).filterMap
      (fun p => match p with
        | (some t, some v) => some (t, v)
        | _ => none)).length < 3) :
    calculate_period_trend_column linregressF cfg time_numeric series_data =
      ⟨0, 0, 0, 1, 0, false, "stable"⟩ := by
  simp [calculate_period_trend_column, neutral_trend, h]

/-- Witness for C3: one valid pair out of two rows yields the neutral
record. -/
theorem C3_witness :
    calculate_period_trend_column (fun _ => none) {}
      [some 1, some 2] [some 3, none] = ⟨0, 0, 0, 1, 0, false, "stable"⟩ :=
  C3_insufficient_points_give_neutral_trend (fun _ => none) {}
    [some 1, some 2] [some 3, none] (by decide)

/-! ## Helper lemmas for correlation detection -/

/-- Both components of an upper pair are elements of the column list. -/
theorem mem_upper_pairs {α : Type} (l : List α) (p : α × α)
    (h : p ∈ upper_pairs l) : p.1 ∈ l ∧ p.2 ∈ l := by
  induction l with
  | nil => simp [upper_pairs] at h
  | cons x xs ih =>
    unfold upper_pairs at h
    rcases List.mem_append.mp h with h1 | h2
    · obtain ⟨y, hy, rfl⟩ := List.mem_map.mp h1
      exact ⟨List.mem_cons_self _ _, List.mem_cons_of_mem _ hy⟩
    · obtain ⟨ha, hb⟩ := ih h2
      exact ⟨List.mem_cons_of_mem _ ha, List.mem_cons_of_mem _ hb⟩

/-- Two distinct pairs of the `i < j` double loop over distinct columns never
name the same unordered pair of metrics. -/
theorem upper_pairs_pairwise {α : Type} (l : List α) (hnd : l.Nodup) :
    (upper_pairs l).Pairwise (fun p q =>
      ¬ ((p.1 = q.1 ∧ p.2 = q.2) ∨ (p.1 = q.2 ∧ p.2 = q.1))) := by
  induction l with
  | nil => simp [upper_pairs]
  | cons x xs ih =>
    obtain ⟨hx, hxs⟩ := List.nodup_cons.mp hnd
    unfold upper_pairs
    rw [List.pairwise_append]
    refine ⟨?_, ih hxs, ?_⟩
    · rw [List.pairwise_map]
      refine (List.Pairwise.imp_of_mem ?_ hxs)
      intro a b ha hb hne
      rintro (⟨-, h2⟩ | ⟨h1, -⟩)
      · exact hne h2
      · have h1' : x = b := h1
        exact hx (by rw [h1']; exact hb)
    · intro p hp q hq
      obtain ⟨y, hy, rfl⟩ := List.mem_map.mp hp
      obtain ⟨hq1, hq2⟩ := mem_upper_pairs _ _ hq
      rintro (⟨h1, -⟩ | ⟨h1, -⟩)
      · have h1' : x = q.1 := h1
        exact hx (by rw [h1']; exact hq1)
      · have h1' : x = q.2 := h1
        exact hx (by rw [h1']; exact hq2)

/-- A produced correlation entry names exactly the pair it was built from. -/
theorem corr_entry_for_names (corrF : String → String → Option ℚ)
    (cfg : TPConfig) (p : String × String) (e : CorrEntry)
    (h : corr_entry_for corrF cfg p = some e) :
    e.metric_a = p.1 ∧ e.metric_b = p.2 := by
  unfold corr_entry_for at h
  cases hr : corrF p.1 p.2 with
  | none => simp only [hr] at h; exact Option.noConfusion h
  | some r =>
    simp only [hr] at h
    by_cases hth : cfg.correlation_threshold ≤ |r|
    · rw [if_pos hth] at h
      obtain rfl := (Option.some.injEq _ _).mp h
      exact ⟨rfl, rfl⟩
    · rw [if_neg hth] at h; exact Option.noConfusion h

/-- C9 (algebraic): for every batch and every unordered pair of numeric
metrics, the correlation detector reports at most one entry per unordered
pair — never both `(A,B)` and `(B,A)`, and never a duplicate — and an entry
exists only when the absolute Pearson coefficient reaches the configured
threshold, tagged `strong` at the stricter threshold and `moderate`
otherwise (the reported coefficient being the rounded one). -/
theorem C9_correlation_pairs_canonical_and_thresholded
    (corrF : String → String → Option ℚ) (cfg : TPConfig)
    (cols : List String) (hnd : cols.Nodup) :
    ((detect_correlations corrF cfg cols).Pairwise (fun e1 e2 =>
      ¬ ((e1.metric_a = e2.metric_a ∧ e1.metric_b = e2.metric_b) ∨
         (e1.metric_a = e2.metric_b ∧ e1.metric_b = e2.metric_a)))) ∧
    (∀ e ∈ detect_correlations corrF cfg cols, ∃ r,
      corrF e.metric_a e.metric_b = some r ∧
      cfg.correlation_threshold ≤ |r| ∧
      e.correlation_coefficient = py_round 3 r ∧
      e.strength =
        (if cfg.strong_correlation_threshold ≤ |r| then "strong"
         else "moderate")) := by
  constructor
  · unfold detect_correlations
    by_cases hlen : cols.length < 2
    · rw [if_pos hlen]; exact List.Pairwise.nil
    · rw [if_neg hlen]
      refine List.Pairwise.filterMap _ ?_ (upper_pairs_pairwise cols hnd)
      intro p q hpq e1 he1 e2 he2
      obtain ⟨ha1, hb1⟩ := corr_entry_for_names _ _ _ _ he1
      obtain ⟨ha2, hb2⟩ := corr_entry_for_names _ _ _ _ he2
      rw [ha1, hb1, ha2, hb2]
      exact hpq
  · intro e he
    unfold detect_correlations at he
    by_cases hlen : cols.length < 2
    · rw [if_pos hlen] at he; simp at he
    · rw [if_neg hlen] at he
      obtain ⟨p, -, hp⟩ := List.mem_filterMap.mp he
      unfold corr_entry_for at hp
      cases hr : corrF p.1 p.2 with
      | none => simp only [hr] at hp; exact Option.noConfusion hp
      | some r =>
        simp only [hr] at hp
        by_cases hth : cfg.correlation_threshold ≤ |r|
        · rw [if_pos hth] at hp
          obtain rfl := (Option.some.injEq _ _).mp hp
          exact ⟨r, hr, hth, rfl, rfl⟩
        · rw [if_neg hth] at hp; exact Option.noConfusion hp

/-- Witness for C9 on three concrete columns. -/
theorem C9_witness :
    ((detect_correlations
        (fun a b => if a = "cpu_usage_avg" ∧ b = "memory_usage_avg"
          then some (91/100) else some (1/10))
        {} ["cpu_usage_avg", "memory_usage_avg", "error_rate"]).Pairwise
      (fun e1 e2 =>
        ¬ ((e1.metric_a = e2.metric_a ∧ e1.metric_b = e2.metric_b) ∨
           (e1.metric_a = e2.metric_b ∧ e1.metric_b = e2.metric_a)))) ∧
    (∀ e ∈ detect_correlations
        (fun a b => if a = "cpu_usage_avg" ∧ b = "memory_usage_avg"
          then some (91/100) else some (1/10))
        {} ["cpu_usage_avg", "memory_usage_avg", "error_rate"], ∃ r,
      (fun a b => if a = "cpu_usage_avg" ∧ b = "memory_usage_avg"
          then some (91/100) else some (1/10)) e.metric_a e.metric_b =
        some r ∧
      TPConfig.correlation_threshold {} ≤ |r| ∧
      e.correlation_coefficient = py_round 3 r ∧
      e.strength =
        (if TPConfig.strong_correlation_threshold {} ≤ |r| then "strong"
         else "moderate")) :=
  C9_correlation_pairs_canonical_and_thresholded
    (fun a b => if a = "cpu_usage_avg" ∧ b = "memory_usage_avg"
      then some (91/100) else some (1/10))
    {} ["cpu_usage_avg", "memory_usage_avg", "error_rate"] (by decide)

/-! ## Helper lemmas for the root-cause ranking -/

/-- The sort comparison in propositional form. -/
theorem cause_key_gt_iff (a b : Cause) :
    cause_key_gt a b = true ↔
      (b.impact < a.impact ∨
        (a.impact = b.impact ∧ b.confidence < a.confidence)) := by
  simp [cause_key_gt, Bool.or_eq_true, Bool.and_eq_true, decide_eq_true_eq]

/-- The comparison is asymmetric. -/
theorem cause_key_gt_asymm (a b : Cause) (h : cause_key_gt a b = true) :
    cause_key_gt b a = false := by
  rw [cause_key_gt_iff] at h
  rw [← Bool.not_eq_true, cause_key_gt_iff]
  rcases h with h | ⟨h1, h2⟩
  · rintro (h' | ⟨h1', h2'⟩) <;> linarith
  · rintro (h' | ⟨h1', h2'⟩) <;> linarith

/-- Not-greater is transitive (it is the lexicographic less-or-equal). -/
theorem cause_key_not_gt_trans (a b c : Cause)
    (h1 : cause_key_gt b a = false) (h2 : cause_key_gt c b = false) :
    cause_key_gt c a = false := by
  rw [← Bool.not_eq_true, cause_key_gt_iff] at h1 h2 ⊢
  push_neg at h1 h2 ⊢
  refine ⟨le_trans h2.1 h1.1, ?_⟩
  intro he
  have h3 : a.impact ≤ b.impact := he ▸ h2.1
  have hba : b.impact = a.impact := le_antisymm h1.1 h3
  have hcb : c.impact = b.impact := by rw [he, hba]
  exact le_trans (h2.2 hcb) (h1.2 hba)

/-- Membership in an insertion. -/
theorem mem_insert_desc (a y : Cause) (l : List Cause) :
    y ∈ insert_desc a l ↔ y = a ∨ y ∈ l := by
  induction l with
  | nil => simp [insert_desc]
  | cons b bs ih =>
    unfold insert_desc
    by_cases h : cause_key_gt b a = true
    · rw [if_pos h, List.mem_cons, ih, List.mem_cons]
      tauto
    · rw [if_neg h, List.mem_cons, List.mem_cons]

/-- Inserting preserves descending sortedness. -/
theorem insert_desc_sorted (a : Cause) (l : List Cause)
    (h : l.Pairwise (fun x y => cause_key_gt y x = false)) :
    (insert_desc a l).Pairwise (fun x y => cause_key_gt y x = false) := by
  induction l with
  | nil => simp [insert_desc]
  | cons b bs ih =>
    rw [List.pairwise_cons] at h
    obtain ⟨hb, hbs⟩ := h
    unfold insert_desc
    by_cases hgt : cause_key_gt b a = true
    · rw [if_pos hgt, List.pairwise_cons]
      refine ⟨?_, ih hbs⟩
      intro y hy
      rcases (mem_insert_desc a y bs).mp hy with rfl | hy'
      · exact cause_key_gt_asymm _ _ hgt
      · exact hb y hy'
    · rw [if_neg hgt, List.pairwise_cons]
      refine ⟨?_, List.pairwise_cons.mpr ⟨hb, hbs⟩⟩
      intro y hy
      rcases List.mem_cons.mp hy with rfl | hy'
      · exact Bool.eq_false_iff.mpr fun hh => hgt hh
      · exact cause_key_not_gt_trans a b y
          (Bool.eq_false_iff.mpr fun hh => hgt hh) (hb y hy')

/-- The stable descending sort is sorted. -/
theorem sort_causes_desc_sorted (l : List Cause) :
    (sort_causes_desc l).Pairwise (fun x y => cause_key_gt y x = false) := by
  induction l with
  | nil => simp [sort_causes_desc]
  | cons a rest ih => exact insert_desc_sorted a _ ih

/-- Sorting preserves membership. -/
theorem mem_sort_causes_desc (y : Cause) (l : List Cause) :
    y ∈ sort_causes_desc l ↔ y ∈ l := by
  induction l with
  | nil => simp [sort_causes_desc]
  | cons a rest ih =>
    unfold sort_causes_desc
    rw [mem_insert_desc, ih, List.mem_cons]

/-- Sorting preserves length. -/
theorem length_insert_desc (a : Cause) (l : List Cause) :
    (insert_desc a l).length = l.length + 1 := by
  induction l with
  | nil => rfl
  | cons b bs ih =>
    unfold insert_desc
    by_cases h : cause_key_gt b a = true
    · rw [if_pos h]; simp [ih]
    · rw [if_neg h]; simp

theorem length_sort_causes_desc (l : List Cause) :
    (sort_causes_desc l).length = l.length := by
  induction l with
  | nil => rfl
  | cons a rest ih =>
    unfold sort_causes_desc
    rw [length_insert_desc, ih, List.length_cons]

/-- Equal sort keys are never strictly greater. -/
theorem cause_key_gt_of_key_eq (a b : Cause)
    (h : (b.impact, b.confidence) = (a.impact, a.confidence)) :
    cause_key_gt b a = false := by
  obtain ⟨h1, h2⟩ := Prod.ext_iff.mp h
  have h1' : b.impact = a.impact := h1
  have h2' : b.confidence = a.confidence := h2
  rw [← Bool.not_eq_true, cause_key_gt_iff]
  rintro (h' | ⟨-, h'⟩)
  · rw [h1'] at h'; exact lt_irrefl _ h'
  · rw [h2'] at h'; exact lt_irrefl _ h' 

/-- Filtering a key class through an insertion whose element has that key
puts the element first and keeps the rest in order. -/
theorem filter_insert_desc_pos (k : ℚ × ℚ) (a : Cause) (l : List Cause)
    (h : ((a.impact, a.confidence) = k)) :
    (insert_desc a l).filter (fun c => decide ((c.impact, c.confidence) = k)) =
      a :: l.filter (fun c => decide ((c.impact, c.confidence) = k)) := by
  induction l with
  | nil => simp [insert_desc, h]
  | cons b bs ih =>
    unfold insert_desc
    by_cases hgt : cause_key_gt b a = true
    · rw [if_pos hgt]
      have hkb : ¬ ((b.impact, b.confidence) = k) := by
        intro hkb
        have hz : cause_key_gt b a = false :=
          cause_key_gt_of_key_eq a b (by rw [hkb]; exact h.symm)
        rw [hz] at hgt
        exact Bool.false_ne_true hgt
      simp only [List.filter_cons, decide_eq_true_eq, if_neg hkb]
      exact ih
    · rw [if_neg hgt]
      simp [h]

/-- Filtering a key class through an insertion of a different-key element
leaves the class unchanged. -/
theorem filter_insert_desc_neg (k : ℚ × ℚ) (a : Cause) (l : List Cause)
    (h : ¬ ((a.impact, a.confidence) = k)) :
    (insert_desc a l).filter (fun c => decide ((c.impact, c.confidence) = k)) =
      l.filter (fun c => decide ((c.impact, c.confidence) = k)) := by
  induction l with
  | nil => simp [insert_desc, h]
  | cons b bs ih =>
    unfold insert_desc
    by_cases hgt : cause_key_gt b a = true
    · rw [if_pos hgt]
      by_cases hkb : ((b.impact, b.confidence) = k)
      · simp only [List.filter_cons, decide_eq_true_eq, if_pos hkb, ih]
      · simp only [List.filter_cons, decide_eq_true_eq, if_neg hkb, ih]
    · rw [if_neg hgt]
      simp [h]

/-- Stability: the sort preserves the relative order of causes with any fixed
`(impact, confidence)` key. -/
theorem filter_sort_causes_desc (k : ℚ × ℚ) (l : List Cause) :
    (sort_causes_desc l).filter
        (fun c => decide ((c.impact, c.confidence) = k)) =
      l.filter (fun c => decide ((c.impact, c.confidence) = k)) := by
  induction l with
  | nil => rfl
  | cons a rest ih =>
    unfold sort_causes_desc
    by_cases h : ((a.impact, a.confidence) = k)
    · rw [filter_insert_desc_pos k a _ h, ih]
      simp [h]
    · rw [filter_insert_desc_neg k a _ h, ih]
      simp [h]

/-- C4 (error handling): for every incident record, `predict_root_cause`
returns at least one candidate; when no configured rule fires it returns
exactly the single fallback candidate — whose type is
"Unknown/Complex Issue", confidence `0.3` and impact `0.5` — and the
returned list is sorted by `(impact, confidence)` descending, ties
preserving insertion order (the filter on any fixed key class is
unchanged by the sort). -/
theorem C4_predict_root_cause_ranked_nonempty_with_fallback
    (cfg : RCAConfig) (rules : List (String × Rule)) (incident : Incident) :
    predict_root_cause cfg rules incident ≠ [] ∧
    ((∀ p ∈ rules, evaluate_rule cfg (py_lower incident.description)
        (resolved_metrics incident) p = none) →
      predict_root_cause cfg rules incident = [fallback_cause]) ∧
    (fallback_cause.type = "Unknown/Complex Issue" ∧
      fallback_cause.confidence = 3/10 ∧ fallback_cause.impact = 1/2) ∧
    (predict_root_cause cfg rules incident).Pairwise
      (fun a b => cause_key_gt b a = false) ∧
    (∀ k : ℚ × ℚ,
      (predict_root_cause cfg rules incident).filter
        (fun c => decide ((c.impact, c.confidence) = k)) =
      (if potential_causes cfg rules incident = [] then [fallback_cause]
       else potential_causes cfg rules incident).filter
        (fun c => decide ((c.impact, c.confidence) = k))) := by
  refine ⟨?_, ?_, ⟨rfl, rfl, rfl⟩, ?_, ?_⟩
  · intro h
    have hlen := length_sort_causes_desc
      (if potential_causes cfg rules incident = [] then [fallback_cause]
       else potential_causes cfg rules incident)
    unfold predict_root_cause at h
    rw [h] at hlen
    by_cases hc : potential_causes cfg rules incident = []
    · rw [if_pos hc] at hlen; exact absurd hlen.symm (by simp)
    · rw [if_neg hc] at hlen
      exact hc (List.length_eq_zero.mp hlen.symm)
  · intro hnone
    have hc : potential_causes cfg rules incident = [] :=
      List.filterMap_eq_nil_iff.mpr hnone
    unfold predict_root_cause
    rw [hc]
    rfl
  · exact sort_causes_desc_sorted _
  · intro k
    unfold predict_root_cause
    exact filter_sort_causes_desc k _

/-- Witness for C4 on a concrete incident with one firing and one
non-firing rule (the conjunct with a hypothesis instantiated at an incident
where no rule fires). -/
theorem C4_witness :
    predict_root_cause {} [("cpu_rule",
      { keywords_any := some ["cpu"],
        cause := some "CPU Overload", impact_score := some (7/10),
        base_confidence := some (7/10) })]
      { description := "disk is full", metrics := some [("disk_usage", 99/100)] } =
      [fallback_cause] :=
  (C4_predict_root_cause_ranked_nonempty_with_fallback {}
    [("cpu_rule",
      { keywords_any := some ["cpu"],
        cause := some "CPU Overload", impact_score := some (7/10),
        base_confidence := some (7/10) })]
    { description := "disk is full",
      metrics := some [("disk_usage", 99/100)] }).2.1 (by decide)

/-! ## Evaluation helpers for rounding -/

/-- Characterization of `Rat.floor` by bounds. -/
theorem rat_floor_eq_of_bounds (q : ℚ) (n : ℤ) (h1 : (n : ℚ) ≤ q)
    (h2 : q < (n : ℚ) + 1) : q.floor = n := by
  have hle : n ≤ q.floor := Rat.le_floor.mpr h1
  have hlt : q.floor < n + 1 := by
    by_contra hcon
    push_neg at hcon
    have := Rat.le_floor.mp hcon
    have : ((n : ℚ) + 1) ≤ q := by push_cast at this ⊢; linarith
    linarith
  omega

/-- Rounding a value whose fractional part is below one half truncates. -/
theorem round_half_even_of_lt_half (q : ℚ) (n : ℤ) (h1 : (n : ℚ) ≤ q)
    (h2 : q < (n : ℚ) + 1/2) : round_half_even q = n := by
  unfold round_half_even
  have hf : q.floor = n := rat_floor_eq_of_bounds q n h1 (by linarith)
  rw [hf, if_pos (by linarith)]

/-- Evaluating `py_round` in the truncating case. -/
theorem py_round_eval (d : ℕ) (q : ℚ) (n : ℤ)
    (h1 : (n : ℚ) ≤ q * (10 : ℚ) ^ d) (h2 : q * (10 : ℚ) ^ d < (n : ℚ) + 1/2) :
    py_round d q = (n : ℚ) / (10 : ℚ) ^ d := by
  unfold py_round
  rw [round_half_even_of_lt_half _ _ h1 h2]

/-- The simplified-schema rewrites never change a rule's base confidence,
impact, cause or recommendation. -/
theorem apply_simplified_schema_preserves (n : String) (rd : Rule) :
    (apply_simplified_schema n rd).base_confidence = rd.base_confidence ∧
    (apply_simplified_schema n rd).impact_score = rd.impact_score ∧
    (apply_simplified_schema n rd).cause = rd.cause ∧
    (apply_simplified_schema n rd).recommendation = rd.recommendation := by
  obtain ⟨k_all, k_any, mts, mt1, cse, rec, imp, base⟩ := rd
  unfold apply_simplified_schema
  by_cases h : k_any = none ∧ k_all = none
  · simp only [if_pos h]
    cases mts <;> cases mt1 <;> exact ⟨rfl, rfl, rfl, rfl⟩
  · simp only [if_neg h]
    cases mts <;> cases mt1 <;> exact ⟨rfl, rfl, rfl, rfl⟩

/-- Unfolding equation for `evaluate_rule` on a named rule. -/
theorem evaluate_rule_def (cfg : RCAConfig) (desc : List Char)
    (metrics : List (String × ℚ)) (n : String) (rd : Rule) :
    evaluate_rule cfg desc metrics (n, rd) =
      if rule_triggered desc metrics (apply_simplified_schema n rd) = true
      then some (cause_of cfg desc metrics (apply_simplified_schema n rd))
      else none := rfl

/-- Unfolding equation for `predict_root_cause`. -/
theorem predict_root_cause_def (cfg : RCAConfig)
    (rules : List (String × Rule)) (incident : Incident) :
    predict_root_cause cfg rules incident =
      sort_causes_desc
        (if potential_causes cfg rules incident = [] then [fallback_cause]
         else potential_causes cfg rules incident) := rfl

/-- C5 amended: whenever both the keyword group and the metric-threshold
group of a rule fire together, the emitted candidate's confidence equals
`min(0.95, base_confidence + boost)` rounded to 2 decimal places (Python's
`round(final_confidence, 2)`), and that candidate appears in the returned
list.  For two-decimal base confidences and boosts whose capped sum has at
most two decimals — such as the spec scenario's `0.7 + 0.1` — the rounding is
the identity and the confidence is exactly `min(0.95, base + boost)`. -/
theorem C5_both_groups_confidence_rounded_boost
    (cfg : RCAConfig) (rules : List (String × Rule)) (rule_name : String)
    (rd : Rule) (incident : Incident)
    (hmem : (rule_name, rd) ∈ rules)
    (htrig : rule_triggered (py_lower incident.description)
      (resolved_metrics incident)
      (apply_simplified_schema rule_name rd) = true)
    (hboth : both_groups_fired (py_lower incident.description)
      (resolved_metrics incident)
      (apply_simplified_schema rule_name rd) = true) :
    (cause_of cfg (py_lower incident.description) (resolved_metrics incident)
        (apply_simplified_schema rule_name rd)).confidence =
      py_round 2 (min (19/20)
        (rd.base_confidence.getD cfg.default_confidence +
          cfg.multi_condition_confidence_boost)) ∧
    cause_of cfg (py_lower incident.description) (resolved_metrics incident)
        (apply_simplified_schema rule_name rd) ∈
      predict_root_cause cfg rules incident := by
  constructor
  · unfold cause_of
    rw [hboth, (apply_simplified_schema_preserves rule_name rd).1]
    simp
  · have heval : evaluate_rule cfg (py_lower incident.description)
        (resolved_metrics incident) (rule_name, rd) =
        some (cause_of cfg (py_lower incident.description)
          (resolved_metrics incident)
          (apply_simplified_schema rule_name rd)) := by
      rw [evaluate_rule_def, if_pos htrig]
    have hmem2 : cause_of cfg (py_lower incident.description)
        (resolved_metrics incident)
        (apply_simplified_schema rule_name rd) ∈
        potential_causes cfg rules incident :=
      List.mem_filterMap.mpr ⟨(rule_name, rd), hmem, heval⟩
    have hne : potential_causes cfg rules incident ≠ [] :=
      List.ne_nil_of_mem hmem2
    rw [predict_root_cause_def, if_neg hne]
    exact (mem_sort_causes_desc _ _).mpr hmem2

/-- Unfolding equation for the confidence of an emitted cause. -/
theorem cause_of_confidence (cfg : RCAConfig) (desc : List Char)
    (metrics : List (String × ℚ)) (rd : Rule) :
    (cause_of cfg desc metrics rd).confidence =
      py_round 2
        (if both_groups_fired desc metrics rd = true
         then min (19/20) (rd.base_confidence.getD cfg.default_confidence +
           cfg.multi_condition_confidence_boost)
         else rd.base_confidence.getD cfg.default_confidence) := rfl

/-- The metric condition of the spec's confidence scenario:
`cpu_usage_avg > 0.75`. -/
def cpu_cond : MetricCond :=
  { metric := some "cpu_usage_avg", threshold := 3/4, operator := some ">" }

/-- The rule of the spec's confidence scenario (keyword `cpu` and the metric
condition), with a configurable base confidence. -/
def cpu_rule_with (base : ℚ) : Rule :=
  { keywords_any := some ["cpu"]
    metrics_thresholds := some [cpu_cond]
    cause := some "CPU Overload"
    recommendation := some "Scale CPU resources or optimize high-CPU processes."
    impact_score := some (7/10)
    base_confidence := some base }

/-- The incident of the spec's confidence scenario: description
`"high cpu usage reported"`, metric `cpu_usage_avg = 0.92`. -/
def cpu_incident : Incident :=
  { description := "high cpu usage reported"
    metrics := some [("cpu_usage_avg", 23/25)] }

/-- On the scenario incident, the scenario rule fires with both condition
groups met, whatever its base confidence. -/
theorem cpu_rule_with_fires (base : ℚ) :
    rule_triggered (py_lower cpu_incident.description)
      (resolved_metrics cpu_incident)
      (apply_simplified_schema "cpu_rule" (cpu_rule_with base)) = true ∧
    both_groups_fired (py_lower cpu_incident.description)
      (resolved_metrics cpu_incident)
      (apply_simplified_schema "cpu_rule" (cpu_rule_with base)) = true := by
  have hlt : (3/4 : ℚ) < 23/25 := by norm_num
  have hop : apply_operator ">" (23/25) (3/4) = some true := by
    unfold apply_operator
    simp [hlt]
  have hmc : metric_conds_met (resolved_metrics cpu_incident) [cpu_cond] =
      (true, [TriggerReason.metricMet (some "cpu_usage_avg") (23/25) ">"
        (3/4)]) := by
    unfold metric_conds_met
    simp only [show metric_val (resolved_metrics cpu_incident) cpu_cond =
        some (23/25) from rfl,
      show cpu_cond.operator.getD ">" = ">" from rfl,
      show cpu_cond.threshold = 3/4 from rfl, hop]
    rfl
  constructor
  · show (metric_conds_met (resolved_metrics cpu_incident) [cpu_cond]).1 = true
    rw [hmc]
  · show ((metric_conds_met (resolved_metrics cpu_incident) [cpu_cond]).1
        && true) = true
    rw [hmc]
    rfl

/-- C5 counterexample: with base confidence `0.601` and the default boost
`0.1`, both condition groups fire on the scenario incident, yet the returned
confidence is `0.7` — the value `round(min(0.95, 0.601 + 0.1), 2)` — and not
`min(0.95, base + boost) = 0.701` as the claim states. -/
theorem C5_counterexample :
    (predict_root_cause {} [("cpu_rule", cpu_rule_with (601/1000))]
        cpu_incident).map Cause.confidence = [7/10] ∧
    (7/10 : ℚ) ≠ min (19/20) (601/1000 + 1/10) := by
  have hfire := cpu_rule_with_fires (601/1000)
  have heval : evaluate_rule {} (py_lower cpu_incident.description)
      (resolved_metrics cpu_incident)
      ("cpu_rule", cpu_rule_with (601/1000)) =
      some (cause_of {} (py_lower cpu_incident.description)
        (resolved_metrics cpu_incident)
        (apply_simplified_schema "cpu_rule" (cpu_rule_with (601/1000)))) := by
    rw [evaluate_rule_def, if_pos hfire.1]
  have hcauses : potential_causes {}
      [("cpu_rule", cpu_rule_with (601/1000))] cpu_incident =
      [cause_of {} (py_lower cpu_incident.description)
        (resolved_metrics cpu_incident)
        (apply_simplified_schema "cpu_rule" (cpu_rule_with (601/1000)))] := by
    unfold potential_causes
    rw [List.filterMap_cons, heval]
    rfl
  have hconf : (cause_of {} (py_lower cpu_incident.description)
      (resolved_metrics cpu_incident)
      (apply_simplified_schema "cpu_rule" (cpu_rule_with (601/1000)))).confidence =
      7/10 := by
    rw [cause_of_confidence, if_pos hfire.2,
      (apply_simplified_schema_preserves "cpu_rule"
        (cpu_rule_with (601/1000))).1]
    rw [show (cpu_rule_with (601/1000)).base_confidence.getD
        (RCAConfig.default_confidence {}) = 601/1000 from rfl]
    rw [show RCAConfig.multi_condition_confidence_boost {} = 1/10 from rfl]
    rw [show min ((19:ℚ)/20) (601/1000 + 1/10) = 701/1000 by norm_num]
    rw [py_round_eval 2 (701/1000) 70 (by norm_num) (by norm_num)]
    norm_num
  constructor
  · rw [predict_root_cause_def, hcauses,
      if_neg (List.cons_ne_nil _ _)]
    rw [show sort_causes_desc [cause_of {} (py_lower cpu_incident.description)
        (resolved_metrics cpu_incident)
        (apply_simplified_schema "cpu_rule" (cpu_rule_with (601/1000)))] =
      [cause_of {} (py_lower cpu_incident.description)
        (resolved_metrics cpu_incident)
        (apply_simplified_schema "cpu_rule" (cpu_rule_with (601/1000)))] from rfl]
    rw [List.map_singleton, hconf]
  · norm_num

/-- Witness for the amended C5 at the spec's own scenario (base confidence
`0.7`, boost `0.1`): both groups fired, the confidence is
`round(min(0.95, 0.8), 2) = 0.8`, and the candidate is in the returned
list. -/
theorem C5_witness :
    ((cause_of {} (py_lower cpu_incident.description)
        (resolved_metrics cpu_incident)
        (apply_simplified_schema "cpu_rule" (cpu_rule_with (7/10)))).confidence =
      py_round 2 (min (19/20)
        ((cpu_rule_with (7/10)).base_confidence.getD
          (RCAConfig.default_confidence {}) +
          RCAConfig.multi_condition_confidence_boost {})) ∧
    cause_of {} (py_lower cpu_incident.description)
        (resolved_metrics cpu_incident)
        (apply_simplified_schema "cpu_rule" (cpu_rule_with (7/10))) ∈
      predict_root_cause {} [("cpu_rule", cpu_rule_with (7/10))]
        cpu_incident) ∧
    py_round 2 (min (19/20)
        ((cpu_rule_with (7/10)).base_confidence.getD
          (RCAConfig.default_confidence {}) +
          RCAConfig.multi_condition_confidence_boost {})) = 4/5 := by
  refine ⟨C5_both_groups_confidence_rounded_boost {}
    [("cpu_rule", cpu_rule_with (7/10))] "cpu_rule" (cpu_rule_with (7/10))
    cpu_incident (List.mem_singleton.mpr rfl)
    (cpu_rule_with_fires (7/10)).1 (cpu_rule_with_fires (7/10)).2, ?_⟩
  rw [show (cpu_rule_with (7/10)).base_confidence.getD
      (RCAConfig.default_confidence {}) = 7/10 from rfl]
  rw [show RCAConfig.multi_condition_confidence_boost {} = 1/10 from rfl]
  rw [show min ((19:ℚ)/20) (7/10 + 1/10) = 4/5 by norm_num]
  rw [py_round_eval 2 (4/5) 80 (by norm_num) (by norm_num)]
  norm_num

/-- A truthy optional list is a present non-empty list. -/
theorem truthy_list_some {α : Type} (o : Option (List α))
    (h : truthy_list o = true) : ∃ x xs, o = some (x :: xs) := by
  cases o with
  | none => exact absurd h (by simp [truthy_list])
  | some l =>
    cases l with
    | nil => exact absurd h (by simp [truthy_list])
    | cons x xs => exact ⟨x, xs, rfl⟩

/-- C6 amended: a rule that defines no keyword keys at all has its own name
injected as a `keywords_any` keyword by the simplified-schema rewrite, so it
fires exactly when its metric thresholds are satisfied AND its name occurs as
a whole word in the incident description — not on metric satisfaction alone.
A rule whose keyword lists are present but empty fires on metric satisfaction
alone, and a rule with only keyword conditions fires on keyword match
alone. -/
theorem C6_keyword_metric_group_triggering (nm : String) (rd : Rule)
    (incident : Incident) :
    (rd.keywords_all = none → rd.keywords_any = none →
      truthy_list rd.metrics_thresholds = true →
      rule_triggered (py_lower incident.description)
        (resolved_metrics incident) (apply_simplified_schema nm rd) =
        (word_search (py_lower incident.description) (py_lower nm) &&
          (metric_conds_met (resolved_metrics incident)
            (rd.metrics_thresholds.getD [])).1)) ∧
    (rd.keywords_all = none → rd.keywords_any = some [] →
      truthy_list rd.metrics_thresholds = true →
      rule_triggered (py_lower incident.description)
        (resolved_metrics incident) (apply_simplified_schema nm rd) =
        (metric_conds_met (resolved_metrics incident)
          (rd.metrics_thresholds.getD [])).1) ∧
    ((truthy_list rd.keywords_all || truthy_list rd.keywords_any) = true →
      rd.metrics_thresholds = none → rd.metric_threshold = none →
      rule_triggered (py_lower incident.description)
        (resolved_metrics incident) (apply_simplified_schema nm rd) =
        (keywords_all_met (py_lower incident.description) rd &&
          keywords_any_met (py_lower incident.description) rd)) := by
  obtain ⟨k_all, k_any, mts, mt1, cse, rec, imp, base⟩ := rd
  refine ⟨?_, ?_, ?_⟩
  · intro h1 h2 h3
    have h1' : k_all = none := h1
    have h2' : k_any = none := h2
    subst h1' h2'
    have h3' : truthy_list mts = true := h3
    obtain ⟨c, cs, hl⟩ := truthy_list_some _ h3'
    subst hl
    cases mt1 with
    | none =>
      have hshape : rule_triggered (py_lower incident.description)
          (resolved_metrics incident)
          (apply_simplified_schema nm
            ⟨none, none, some (c :: cs), none, cse, rec, imp, base⟩) =
          ((word_search (py_lower incident.description) (py_lower nm) ||
              false) &&
            (metric_conds_met (resolved_metrics incident) (c :: cs)).1) := rfl
      rw [hshape]
      cases hws : word_search (py_lower incident.description) (py_lower nm) <;>
        rfl
    | some t =>
      have hshape : rule_triggered (py_lower incident.description)
          (resolved_metrics incident)
          (apply_simplified_schema nm
            ⟨none, none, some (c :: cs), some t, cse, rec, imp, base⟩) =
          ((word_search (py_lower incident.description) (py_lower nm) ||
              false) &&
            (metric_conds_met (resolved_metrics incident) (c :: cs)).1) := rfl
      rw [hshape]
      cases hws : word_search (py_lower incident.description) (py_lower nm) <;>
        rfl
  · intro h1 h2 h3
    have h1' : k_all = none := h1
    have h2' : k_any = some [] := h2
    subst h1' h2'
    have h3' : truthy_list mts = true := h3
    obtain ⟨c, cs, hl⟩ := truthy_list_some _ h3'
    subst hl
    cases mt1 <;> rfl
  · intro h1 h2 h3
    have h2' : mts = none := h2
    have h3' : mt1 = none := h3
    subst h2' h3'
    have hkw : (truthy_list k_all || truthy_list k_any) = true := h1
    have hcond : ¬ (k_any = none ∧ k_all = none) := by
      rintro ⟨rfl, rfl⟩
      simp [truthy_list] at hkw
    have hschema : apply_simplified_schema nm
        ⟨k_all, k_any, none, none, cse, rec, imp, base⟩ =
        ⟨k_all, k_any, none, none, cse, rec, imp, base⟩ := by
      unfold apply_simplified_schema
      rw [if_neg hcond]
    rw [hschema]
    unfold rule_triggered
    simp only [hkw]
    simp [truthy_list]

/-- The metric condition `cpu_usage_avg > 0.5`. -/
def cpu_cond_half : MetricCond :=
  { metric := some "cpu_usage_avg", threshold := 1/2, operator := some ">" }

/-- A rule defining only metric-threshold conditions: no keyword keys at
all. -/
def metric_only_rule : Rule :=
  { metrics_thresholds := some [cpu_cond_half]
    cause := some "CPU Overload"
    impact_score := some (7/10)
    base_confidence := some (7/10) }

/-- An incident with an empty description whose metric mapping satisfies the
rule's only threshold. -/
def metric_only_incident : Incident :=
  { description := "", metrics := some [("cpu_usage_avg", 9/10)] }

/-- C6 counterexample: the incident's metrics satisfy every threshold of the
metric-only rule, yet the rule does not fire — the estimator returns only the
fallback candidate — because the simplified-schema rewrite injected the rule
name as a required keyword and the empty description cannot match it. -/
theorem C6_counterexample :
    (metric_conds_met (resolved_metrics metric_only_incident)
      (metric_only_rule.metrics_thresholds.getD [])).1 = true ∧
    predict_root_cause {} [("metric_only_rule", metric_only_rule)]
      metric_only_incident = [fallback_cause] := by
  have hlt : (1/2 : ℚ) < 9/10 := by norm_num
  have hop : apply_operator ">" (9/10) (1/2) = some true := by
    unfold apply_operator
    rw [if_pos rfl, decide_eq_true hlt]
  have hmc : metric_conds_met (resolved_metrics metric_only_incident)
      [cpu_cond_half] =
      (true, [TriggerReason.metricMet (some "cpu_usage_avg") (9/10) ">"
        (1/2)]) := by
    unfold metric_conds_met
    simp only [show metric_val (resolved_metrics metric_only_incident)
        cpu_cond_half = some (9/10) from rfl,
      show cpu_cond_half.operator.getD ">" = ">" from rfl,
      show cpu_cond_half.threshold = 1/2 from rfl, hop]
    rfl
  constructor
  · show (metric_conds_met (resolved_metrics metric_only_incident)
      [cpu_cond_half]).1 = true
    rw [hmc]
  · have htrig : rule_triggered (py_lower metric_only_incident.description)
        (resolved_metrics metric_only_incident)
        (apply_simplified_schema "metric_only_rule" metric_only_rule) =
        false := by
      show ((word_search (py_lower metric_only_incident.description)
          (py_lower "metric_only_rule") || false) &&
        (metric_conds_met (resolved_metrics metric_only_incident)
          [cpu_cond_half]).1) = false
      rw [show word_search (py_lower metric_only_incident.description)
        (py_lower "metric_only_rule") = false from rfl]
      rfl
    have heval : evaluate_rule {}
        (py_lower metric_only_incident.description)
        (resolved_metrics metric_only_incident)
        ("metric_only_rule", metric_only_rule) = none := by
      rw [evaluate_rule_def, if_neg (by simp [htrig])]
    have hcauses : potential_causes {}
        [("metric_only_rule", metric_only_rule)] metric_only_incident =
        [] := by
      unfold potential_causes
      simp only [List.filterMap_cons, List.filterMap_nil, heval]
    rw [predict_root_cause_def, hcauses, if_pos rfl]
    rfl

/-- Witness for the amended C6: a rule whose `keywords_any` is present but
empty fires on metric satisfaction alone (second part of the amended
theorem, applied at a concrete rule and incident). -/
theorem C6_witness :
    rule_triggered (py_lower metric_only_incident.description)
      (resolved_metrics metric_only_incident)
      (apply_simplified_schema "empty_kw_rule"
        { metric_only_rule with keywords_any := some [] }) =
      (metric_conds_met (resolved_metrics metric_only_incident)
        (({ metric_only_rule with
            keywords_any := some [] } : Rule).metrics_thresholds.getD [])).1 :=
  (C6_keyword_metric_group_triggering "empty_kw_rule"
    { metric_only_rule with keywords_any := some [] }
    metric_only_incident).2.1 rfl rfl rfl

/-! ## Helper lemmas for data preparation -/

/-- Filling touches only missing cells: a fully present row is unchanged. -/
theorem row_fill_id (row : List Cell) (fills : List (Option CellVal))
    (hlen : row.length ≤ fills.length) (hclean : ∀ c ∈ row, c ≠ none) :
    (row.zip fills).map fill_cell = row := by
  induction row generalizing fills with
  | nil => simp
  | cons c cs ih =>
    cases fills with
    | nil => simp at hlen
    | cons f fs =>
      simp only [List.zip_cons_cons, List.map_cons]
      have hc : c ≠ none := hclean c (List.mem_cons_self _ _)
      have hcell : fill_cell (c, f) = c := by
        unfold fill_cell
        cases c with
        | none => exact absurd rfl hc
        | some v => rfl
      rw [hcell, ih fs (by simpa using Nat.le_of_succ_le_succ hlen)
        (fun x hx => hclean x (List.mem_cons_of_mem _ hx))]

/-- `_handle_missing_values` is the identity on a rectangular frame with no
missing cells. -/
theorem handle_missing_values_id (cfg : PrepConfig) (df : DFrame)
    (hrect : ∀ r ∈ df.rows, r.length = df.cols.length)
    (hclean : ∀ r ∈ df.rows, ∀ c ∈ r, c ≠ none) :
    handle_missing_values cfg df = df := by
  unfold handle_missing_values
  obtain ⟨cols, rows⟩ := df
  simp only [DFrame.mk.injEq, true_and]
  conv_rhs => rw [← List.map_id rows]
  apply List.map_congr_left
  intro r hr
  apply row_fill_id
  · rw [hrect r hr]
    have h1 : (List.range cols.length).length = cols.length :=
      List.length_range cols.length
    calc cols.length = min cols.length cols.length := (Nat.min_self _).symm
      _ ≤ _ := by
        rw [List.length_zipWith, h1]
  · exact hclean r hr

/-- `drop_duplicates_aux` is the identity on a list of pairwise-distinct rows
none of which was seen before. -/
theorem drop_duplicates_aux_id (l : List (List Cell))
    (seen : List (List Cell)) (hnd : l.Nodup)
    (hdisj : ∀ r ∈ l, r ∉ seen) :
    drop_duplicates_aux seen l = l := by
  induction l generalizing seen with
  | nil => rfl
  | cons r rs ih =>
    obtain ⟨hr, hrs⟩ := List.nodup_cons.mp hnd
    unfold drop_duplicates_aux
    rw [if_neg (hdisj r (List.mem_cons_self _ _))]
    rw [ih (r :: seen) hrs]
    intro x hx
    rw [List.mem_cons]
    rintro (rfl | hxs)
    · exact hr hx
    · exact hdisj x (List.mem_cons_of_mem _ hx) hxs

/-- `drop_duplicates` is the identity on a frame with pairwise-distinct
rows. -/
theorem drop_duplicates_id (df : DFrame) (hnd : df.rows.Nodup) :
    drop_duplicates df = df := by
  unfold drop_duplicates
  obtain ⟨cols, rows⟩ := df
  simp only [DFrame.mk.injEq, true_and]
  exact drop_duplicates_aux_id rows [] hnd (by simp)

/-- Inserting with `insert_ts_le` permutes: the result contains exactly the
new row and the old ones. -/
theorem insert_ts_le_perm (j : ℕ) (r : List Cell) (l : List (List Cell)) :
    (insert_ts_le j r l).Perm (r :: l) := by
  induction l with
  | nil => exact List.Perm.refl _
  | cons s ss ih =>
    unfold insert_ts_le
    by_cases h : ts_val j s ≤ ts_val j r
    · rw [if_pos h]
      exact (ih.cons s).trans (List.Perm.swap r s ss)
    · rw [if_neg h]

/-- Inserting with `insert_ts_le` preserves ascending order. -/
theorem insert_ts_le_sorted (j : ℕ) (r : List Cell) (l : List (List Cell))
    (h : l.Pairwise (fun a b => ts_val j a ≤ ts_val j b)) :
    (insert_ts_le j r l).Pairwise (fun a b => ts_val j a ≤ ts_val j b) := by
  induction l with
  | nil => simp [insert_ts_le]
  | cons s ss ih =>
    obtain ⟨hs, hss⟩ := List.pairwise_cons.mp h
    unfold insert_ts_le
    by_cases hle : ts_val j s ≤ ts_val j r
    · rw [if_pos hle, List.pairwise_cons]
      refine ⟨?_, ih hss⟩
      intro y hy
      rcases List.mem_cons.mp ((insert_ts_le_perm j r ss).mem_iff.mp hy) with
        rfl | hy'
      · exact hle
      · exact hs y hy'
    · rw [if_neg hle, List.pairwise_cons]
      have hrs : ts_val j r ≤ ts_val j s := le_of_not_le hle
      refine ⟨?_, h⟩
      intro y hy
      rcases List.mem_cons.mp hy with rfl | hy'
      · exact hrs
      · exact le_trans hrs (hs y hy')

/-- `ties_last_sort` satisfies everything pandas guarantees of
`sort_values`: its output is an ascending permutation of the rows. -/
theorem ties_last_sort_contract : pandas_sort_contract ties_last_sort := by
  intro j l
  induction l with
  | nil => exact ⟨List.Perm.refl _, List.Pairwise.nil⟩
  | cons r rs ih =>
    constructor
    · exact (insert_ts_le_perm j r (ties_last_sort j rs)).trans (ih.1.cons r)
    · exact insert_ts_le_sorted j r _ ih.2

/-- An ascending permutation of a strictly ascending list is that list: with
pairwise-distinct timestamps the sorted arrangement is unique, whatever
sorting algorithm produced it. -/
theorem eq_of_perm_of_strict_sorted (j : ℕ) (l l' : List (List Cell))
    (hperm : l'.Perm l)
    (hl : l.Pairwise (fun r s => ts_val j r < ts_val j s))
    (hl' : l'.Pairwise (fun r s => ts_val j r ≤ ts_val j s)) : l' = l := by
  induction l generalizing l' with
  | nil => exact hperm.eq_nil
  | cons r rs ih =>
    obtain ⟨hr, hrs⟩ := List.pairwise_cons.mp hl
    cases l' with
    | nil => exact absurd (hperm.symm.eq_nil) (by simp)
    | cons x xs =>
      obtain ⟨hx, hxs⟩ := List.pairwise_cons.mp hl'
      have hxr : x = r := by
        rcases List.mem_cons.mp
            (hperm.mem_iff.mp (List.mem_cons_self x xs)) with rfl | hxin
        · rfl
        · rcases List.mem_cons.mp
              (hperm.symm.mem_iff.mp (List.mem_cons_self r rs)) with
            h1 | hrin
          · exact h1.symm
          · have h2 := hx r hrin
            have h3 := hr x hxin
            linarith
      subst hxr
      rw [ih xs hperm.cons_inv hrs hxs]

/-- Any contract-satisfying sort leaves a frame with strictly ascending
timestamps unchanged (and frames without a timestamp column untouched). -/
theorem sort_by_timestamp_strict_id
    (sortF : ℕ → List (List Cell) → List (List Cell))
    (hcontract : pandas_sort_contract sortF) (df : DFrame)
    (hstrict : ∀ j, ts_idx df = some j →
      df.rows.Pairwise (fun r s => ts_val j r < ts_val j s)) :
    sort_by_timestamp sortF df = df := by
  unfold sort_by_timestamp
  cases hj : ts_idx df with
  | none => rfl
  | some j =>
    obtain ⟨cols, rows⟩ := df
    simp only [DFrame.mk.injEq, true_and]
    exact eq_of_perm_of_strict_sorted j rows (sortF j rows)
      (hcontract j rows).1 (hstrict j hj) (hcontract j rows).2

/-- A clean, duplicate-free batch, sorted ascending by timestamp but with
the two rows sharing one timestamp. -/
def tie_batch : DFrame :=
  { cols := [("timestamp", DType.dtime), ("host", DType.obj)]
    rows := [[some (CellVal.num 1), some (CellVal.str "a")],
             [some (CellVal.num 1), some (CellVal.str "b")]] }

/-- C8 counterexample: `ties_last_sort` satisfies everything pandas
guarantees of `sort_values` (default `kind='quicksort'` is not stable), the
batch satisfies all of the claim's hypotheses — rectangular, no missing
values, no duplicate rows, sorted ascending by timestamp — and yet
`_prepare_data` built on that admissible sort does not return the batch
unchanged: the two rows sharing a timestamp come back swapped. -/
theorem C8_counterexample :
    pandas_sort_contract ties_last_sort ∧
    (∀ r ∈ tie_batch.rows, r.length = tie_batch.cols.length) ∧
    (∀ r ∈ tie_batch.rows, ∀ c ∈ r, c ≠ none) ∧
    tie_batch.rows.Nodup ∧
    (∀ j, ts_idx tie_batch = some j →
      tie_batch.rows.Pairwise (fun r s => ts_val j r ≤ ts_val j s)) ∧
    prepare_data ties_last_sort {} tie_batch ≠ tie_batch := by
  refine ⟨ties_last_sort_contract, by decide, by decide, by decide, ?_, ?_⟩
  · intro j hj
    have hj' : j = 0 := by
      have := by simpa [ts_idx, List.findIdx?] using hj
      omega
    subst hj'
    decide
  · decide

/-- C8 amended: for every sorting function satisfying the pandas
`sort_values` contract (ascending permutation — stability is not
guaranteed), normalization is the identity on every rectangular batch with
no missing values, no duplicate rows and strictly ascending timestamps, and
is idempotent there; with tied timestamps the unstable sort may permute the
tied rows, so identity is not guaranteed (see the counterexample). -/
theorem C8_prepare_data_identity_on_strictly_sorted_input
    (sortF : ℕ → List (List Cell) → List (List Cell)) (cfg : PrepConfig)
    (df : DFrame)
    (hcontract : pandas_sort_contract sortF)
    (hrect : ∀ r ∈ df.rows, r.length = df.cols.length)
    (hclean : ∀ r ∈ df.rows, ∀ c ∈ r, c ≠ none)
    (hnodup : df.rows.Nodup)
    (hstrict : ∀ j, ts_idx df = some j →
      df.rows.Pairwise (fun r s => ts_val j r < ts_val j s)) :
    prepare_data sortF cfg df = df ∧
    prepare_data sortF cfg (prepare_data sortF cfg df) =
      prepare_data sortF cfg df := by
  have h1 : prepare_data sortF cfg df = df := by
    unfold prepare_data
    rw [handle_missing_values_id cfg df hrect hclean,
      drop_duplicates_id df hnodup,
      sort_by_timestamp_strict_id sortF hcontract df hstrict]
  exact ⟨h1, by rw [h1, h1]⟩

/-- Witness for the amended C8 at a concrete clean two-row frame with
strictly increasing timestamps, using the concrete contract-satisfying
sort. -/
theorem C8_witness :
    prepare_data ties_last_sort {}
      { cols := [("timestamp", DType.dtime), ("cpu_usage", DType.num)],
        rows := [[some (CellVal.num 1), some (CellVal.num 50)],
                 [some (CellVal.num 2), some (CellVal.num 60)]] } =
      { cols := [("timestamp", DType.dtime), ("cpu_usage", DType.num)],
        rows := [[some (CellVal.num 1), some (CellVal.num 50)],
                 [some (CellVal.num 2), some (CellVal.num 60)]] } :=
  (C8_prepare_data_identity_on_strictly_sorted_input ties_last_sort {}
    { cols := [("timestamp", DType.dtime), ("cpu_usage", DType.num)],
      rows := [[some (CellVal.num 1), some (CellVal.num 50)],
               [some (CellVal.num 2), some (CellVal.num 60)]] }
    ties_last_sort_contract
    (by intro r hr; fin_cases hr <;> rfl)
    (by intro r hr; fin_cases hr <;> (intro c hc; fin_cases hc <;> simp))
    (by simp)
    (by
      intro j hj
      have hj' : j = 0 := by
        have := by simpa [ts_idx, List.findIdx?] using hj
        omega
      subst hj'
      refine List.pairwise_cons.mpr ⟨?_, ?_⟩
      · intro s hs
        rw [List.mem_singleton.mp hs]
        show (1 : ℚ) < 2
        norm_num
      · simp)).1
